import Mathlib

/-!
Verification of the free-tier request-mediation backend (`backend/nova_free.py`).

The Python source is shallowly embedded over `List Char`:

* text values are lists of characters (Python `str` over its code points);
* the regular expressions of the source (`DISALLOWED_INTENT`, the seven
  entries of `CODE_PATTERNS`, and the two per-line shapes counted by
  `looks_like_code`) are translated pattern-by-pattern into executable
  matchers with Python `re` semantics: `re.search` is existence of a match
  at some position, `\s` is ASCII whitespace, `\w` is ASCII alphanumeric
  or underscore, `(?m)^`/`(?m)$` anchor only around `'\n'`, `.` matches
  everything except `'\n'` unless `(?s)` is set, and `\b` is a word/non-word
  boundary;
* `str.splitlines` splits on the ASCII line breaks `'\n'`, `'\r'`, `"\r\n"`,
  `'\x0B'`, `'\x0C'` (the rare non-ASCII break characters are outside the
  character model used here), `str.rstrip`/`str.strip` strip ASCII
  whitespace, and `str.count` counts non-overlapping occurrences;
* the Flask route `api_chat` becomes a total function from the decoded
  request body to the produced envelope, parameterised by the presence of
  an OpenAI client and by the behaviour of the external completion call;
  the pair actually handed to the completion call (system prompt plus
  message list) is returned alongside the envelope so that theorems can
  speak about what was forwarded.
-/

namespace NovaFree

/-- Code points of a string literal, the text representation used throughout. -/
def cs (s : String) : List Char := s.data

/-- The backtick character (appears in `CODE_PATTERNS` fences and inline spans). -/
def bq : Char := Char.ofNat 96

/-- The opening curly brace character. -/
def lbr : Char := Char.ofNat 123

/-- The closing curly brace character. -/
def rbr : Char := Char.ofNat 125

/-- ASCII whitespace, Python's `\s` and the characters stripped by `str.strip`. -/
def pySpace (c : Char) : Bool :=
  c = ' ' || c = '\t' || c = '\n' || c = '\x0d' || c = '\x0b' || c = '\x0c'

/-- Python's `\w`: ASCII alphanumeric or underscore. -/
def wordc (c : Char) : Bool :=
  c.isAlphanum || c = '_'

/-- ASCII lower-casing, Python's `str.lower` on the ASCII range; used to model
the `(?i)` flag by lower-casing the subject before matching the (lower-case)
pattern literals. -/
def lowc (c : Char) : Char :=
  if 'A' ≤ c && c ≤ 'Z' then Char.ofNat (c.toNat + 32) else c

/-- The ASCII line-break characters recognised by `str.splitlines`. -/
def isBreak (c : Char) : Bool :=
  c = '\n' || c = '\x0d' || c = '\x0b' || c = '\x0c'

/-- Does `pre` occur at the very start of `s`? (literal fragment of a regex) -/
def litPre : List Char → List Char → Bool
  | [], _ => true
  | _ :: _, [] => false
  | a :: as, b :: bs => a = b && litPre as bs

/-- Does `needle` occur anywhere in `hay`? (Python `needle in hay`) -/
def containsSub (needle : List Char) : List Char → Bool
  | [] => needle.isEmpty
  | c :: r => litPre needle (c :: r) || containsSub needle r

/-- `str.rstrip()`: drop trailing ASCII whitespace. -/
def rstrip (l : List Char) : List Char :=
  (l.reverse.dropWhile pySpace).reverse

/-- Replace every `"\r\n"` by `"\n"`; composed with the single-character
splitter below this reproduces `str.splitlines`, which treats `"\r\n"` as one
break. -/
def normCRLF : List Char → List Char
  | [] => []
  | [c] => [c]
  | a :: b :: r =>
    if a = '\x0d' && b = '\n' then '\n' :: normCRLF r
    else a :: normCRLF (b :: r)

/-- Split at every individual break character, keeping the (possibly empty)
final segment. -/
def splitPieces : List Char → List (List Char)
  | [] => [[]]
  | c :: r =>
    if isBreak c then [] :: splitPieces r
    else
      match splitPieces r with
      | p :: ps => (c :: p) :: ps
      | [] => [[c]]

/-- Drop the final segment when it is empty, as `str.splitlines` does. -/
def dropLastEmpty (ps : List (List Char)) : List (List Char) :=
  if ps.getLast? = some [] then ps.dropLast else ps

/-- `str.splitlines()` over the ASCII break characters. -/
def splitlines (t : List Char) : List (List Char) :=
  dropLastEmpty (splitPieces (normCRLF t))

/-- All suffixes of `t` at which `(?m)^` can anchor: the whole text plus the
suffix after every `'\n'`. -/
def nlTails : List Char → List (List Char)
  | [] => []
  | c :: r => if c = '\n' then r :: nlTails r else nlTails r

/-- Anchoring points of `(?m)^` in `t`. -/
def lineStarts (t : List Char) : List (List Char) :=
  t :: nlTails t

/-- `\s*$` in multiline mode: only whitespace up to the next `'\n'` or the end
of the text. -/
def endsLine : List Char → Bool
  | [] => true
  | c :: r => if c = '\n' then true else if pySpace c then endsLine r else false

/-!  The seven members of `CODE_PATTERNS`, in source order.  -/

/-- Pattern 1, `` ```|~~~ ``: a fenced-code delimiter anywhere. -/
def p1 (t : List Char) : Bool :=
  containsSub [bq, bq, bq] t || containsSub ['~', '~', '~'] t

/-- The keyword alternatives of pattern 2 (lower-cased literals; the original
pattern carries `(?i)`). -/
def P2_KEYWORDS : List (List Char) :=
  [cs "import ", cs "from ", cs "def ", cs "class ", cs "function ",
   cs "const ", cs "let ", cs "var ", cs "#include", cs "using ",
   cs "package", cs "public ", cs "private", cs "template",
   cs "select ", cs "insert ", cs "update ", cs "create table",
   cs "<!doctype", cs "<html", cs "<script", cs "<style", cs "begin "]

/-- Pattern 2, `(?mi)^\s*(import |from |…|BEGIN )`: some anchoring point
followed by whitespace and a declaration/statement keyword.  The subject is
lower-cased by the caller. -/
def p2 (tl : List Char) : Bool :=
  (lineStarts tl).any fun s => P2_KEYWORDS.any fun k => litPre k (s.dropWhile pySpace)

/-- Pattern 3, `(?m)(;|\{|\})\s*$`: a `;`, `{` or `}` followed by whitespace
up to a line end. -/
def p3aux : List Char → Bool
  | [] => false
  | c :: r => ((c = ';' || c = lbr || c = rbr) && endsLine r) || p3aux r

/-- Pattern 3 over the whole text. -/
def p3 (t : List Char) : Bool := p3aux t

/-- `\s*.+$` after the `=` of pattern 4, within multiline mode: there must be a
character other than `'\n'` reachable through whitespace; since `.` itself
matches whitespace other than `'\n'`, this is just the presence of a
non-`'\n'` character before… any position, i.e. anywhere in the rest only up
to the point where `.+` must start — which reduces to: some character of the
remainder differs from `'\n'` after dropping a leading run of `'\n'`s; as `.`
matches every non-`'\n'` character this is equivalent to the remainder
containing any non-`'\n'` character. -/
def afterEq (s : List Char) : Bool :=
  s.any fun c => c ≠ '\n'

/-- Pattern 4 at one anchoring point: `^\s*\w+\s*=\s*.+$`. -/
def p4at (s : List Char) : Bool :=
  let s1 := s.dropWhile pySpace
  let w := s1.takeWhile wordc
  let s2 := (s1.dropWhile wordc).dropWhile pySpace
  (!w.isEmpty) &&
    (match s2 with
     | '=' :: r => afterEq r
     | _ => false)

/-- Pattern 4, `(?mi)^\s*\w+\s*=\s*.+$`, over the whole text. -/
def p4 (t : List Char) : Bool :=
  (lineStarts t).any p4at

/-- Right-hand `\b` when the last matched character is a word character: the
next character must be absent or a non-word character. -/
def rightBok : List Char → Bool
  | [] => true
  | c :: _ => !(wordc c)

/-- The fixed literals of pattern 5 (lower-cased). -/
def P5_LITS : List (List Char) :=
  [cs "int main", cs "#!/", cs "pip install", cs "npm install",
   cs "conda ", cs "apt-get "]

/-- `\b` on one side of a match, given the word-ness of the character inside
the match at that side and the adjacent character outside it (none at the
text's edge). -/
def boundB (insideWord : Bool) (outside : Option Char) : Bool :=
  match outside with
  | none => insideWord
  | some c => insideWord != wordc c

/-- One fixed literal of pattern 5 matched at `s`, with both `\b` checks.
`prev` is the character just before `s` in the subject. -/
def p5lit (prev : Option Char) (lit : List Char) (s : List Char) : Bool :=
  litPre lit s &&
    (match lit.head? with
     | some c => boundB (wordc c) prev
     | none => false) &&
    (match lit.getLast? with
     | some c => boundB (wordc c) (s.drop lit.length).head?
     | none => false)

/-- The `curl .* \| bash` alternative after its `"curl "` prefix: scan the
rest of the line (`.` does not cross `'\n'`) for `" | bash"`, then the
right-hand `\b` after `bash`. -/
def curlScan : List Char → Bool
  | [] => false
  | c :: r =>
    (litPre (cs " | bash") (c :: r) && rightBok ((c :: r).drop 7)) ||
      (if c = '\n' then false else curlScan r)

/-- All alternatives of pattern 5 matched at `s` (subject lower-cased). -/
def p5at (prev : Option Char) (s : List Char) : Bool :=
  P5_LITS.any (fun l => p5lit prev l s) ||
    (litPre (cs "curl ") s && boundB true prev && curlScan (s.drop 5))

/-- Scan every position of the subject, remembering the previous character. -/
def p5aux (prev : Option Char) : List Char → Bool
  | [] => false
  | c :: r => p5at prev (c :: r) || p5aux (some c) r

/-- Pattern 5, `(?i)\b(int main|#!/|pip install|npm install|conda |apt-get |curl .* \| bash)\b`.
The subject is lower-cased by the caller. -/
def p5 (tl : List Char) : Bool := p5aux none tl

/-- Pattern 6 at one anchoring point: `^\s*<[^>]+>\s*$`. -/
def p6at (s : List Char) : Bool :=
  match s.dropWhile pySpace with
  | '<' :: r =>
    (!(r.takeWhile (fun c => c ≠ '>')).isEmpty) &&
      (match r.dropWhile (fun c => c ≠ '>') with
       | '>' :: r2 => endsLine r2
       | _ => false)
  | _ => false

/-- Pattern 6, `(?m)^\s*<[^>]+>\s*$`: a line holding a single bare tag. -/
def p6 (t : List Char) : Bool :=
  (lineStarts t).any p6at

/-- One inline code span `` `[^`]+` `` matched at the head of `s`; returns the
remainder on success. -/
def spanAt (s : List Char) : Option (List Char) :=
  match s with
  | c :: r =>
    if c = bq then
      let body := r.takeWhile (fun x => x ≠ bq)
      if body.isEmpty then none
      else
        match r.dropWhile (fun x => x ≠ bq) with
        | c2 :: r2 => if c2 = bq then some r2 else none
        | [] => none
    else none
  | [] => none

/-- `.*` between the spans of pattern 7: all suffixes reachable without
crossing `'\n'`. -/
def dotStarSuf : List Char → List (List Char)
  | [] => [[]]
  | c :: r => if c = '\n' then [c :: r] else (c :: r) :: dotStarSuf r

/-- Three inline spans separated by `.*`, matched at `s`. -/
def p7at (s : List Char) : Bool :=
  match spanAt s with
  | none => false
  | some r1 =>
    (dotStarSuf r1).any fun s2 =>
      match spanAt s2 with
      | none => false
      | some r2 =>
        (dotStarSuf r2).any fun s3 => (spanAt s3).isSome

/-- Pattern 7, `` `[^`]+`.*`[^`]+`.*`[^`]+` ``: three inline code spans in
sequence. -/
def p7 : List Char → Bool
  | [] => p7at []
  | c :: r => p7at (c :: r) || p7 r

/-- `any(p.search(text) for p in CODE_PATTERNS)`. -/
def anyCodePattern (t : List Char) : Bool :=
  p1 t || p2 (t.map lowc) || p3 t || p4 t || p5 (t.map lowc) || p6 t || p7 t

/-!  The per-line counts of `looks_like_code`'s fallback tier.  -/

/-- `l.endswith((';','{','}'))`. -/
def endsSemi (l : List Char) : Bool :=
  match l.getLast? with
  | some c => c = ';' || c = lbr || c = rbr
  | none => false

/-- `re.search(r"^\s*\w+\s*=\s*.+$", l)` on a single (break-free) line. -/
def assignLine (l : List Char) : Bool :=
  let s1 := l.dropWhile pySpace
  let w := s1.takeWhile wordc
  let s2 := (s1.dropWhile wordc).dropWhile pySpace
  (!w.isEmpty) &&
    (match s2 with
     | '=' :: r => !r.isEmpty
     | _ => false)

/-- `re.match(r"^\s*<[^>]+>\s*$", l)` on a single line. -/
def tagLine (l : List Char) : Bool :=
  match l.dropWhile pySpace with
  | '<' :: r =>
    (!(r.takeWhile (fun c => c ≠ '>')).isEmpty) &&
      (match r.dropWhile (fun c => c ≠ '>') with
       | '>' :: r2 => r2.all pySpace
       | _ => false)
  | _ => false

/-- Python `str.count`, non-overlapping, for a non-empty needle `c0 :: nd`;
fuelled structural recursion (each step consumes at least one character, so
fuel `l.length` is always enough). -/
def countSubPosF (c0 : Char) (nd : List Char) : Nat → List Char → Nat
  | 0, _ => 0
  | _, [] => 0
  | fuel + 1, c :: r =>
    if litPre (c0 :: nd) (c :: r) then 1 + countSubPosF c0 nd fuel (r.drop nd.length)
    else countSubPosF c0 nd fuel r

/-- Python `str.count`, non-overlapping, for a non-empty needle `c0 :: nd`. -/
def countSubPos (c0 : Char) (nd : List Char) (l : List Char) : Nat :=
  countSubPosF c0 nd l.length l

/-- Python `str.count`. -/
def countSub (nd : List Char) (t : List Char) : Nat :=
  match nd with
  | [] => t.length + 1
  | c0 :: nd' => countSubPos c0 nd' t

/-- The rstripped lines of the text, `[l.rstrip() for l in text.splitlines()]`. -/
def guardLines (t : List Char) : List (List Char) :=
  (splitlines t).map rstrip

/-- Count of lines ending in `;`, `{` or `}`. -/
def enders (t : List Char) : Nat :=
  (guardLines t).countP endsSemi

/-- Count of assignment-shaped lines. -/
def assigns (t : List Char) : Nat :=
  (guardLines t).countP assignLine

/-- Count of bare-tag lines. -/
def tags (t : List Char) : Nat :=
  (guardLines t).countP tagLine

/-- `text.count("```") + text.count("~~~")`. -/
def blocks (t : List Char) : Nat :=
  countSub [bq, bq, bq] t + countSub ['~', '~', '~'] t

/-- Is the text blank, `not text.strip()`? -/
def blankStr (t : List Char) : Bool :=
  t.all pySpace

/-- `looks_like_code` on an actual string. -/
def looks_like_code_str (t : List Char) : Bool :=
  if blankStr t then false
  else if anyCodePattern t then true
  else decide (3 ≤ enders t) || decide (3 ≤ assigns t) || decide (3 ≤ tags t)
    || decide (0 < blocks t)

/-- A Python value that is either a string or something that is not a string
(the guard is also fed `None` when the model returns empty content). -/
inductive PyVal where
  | str (s : List Char)
  | notStr
deriving DecidableEq

/-- `looks_like_code(text)` with its `isinstance(text, str)` test. -/
def looks_like_code : PyVal → Bool
  | .notStr => false
  | .str t => looks_like_code_str t

/-- The fixed refusal string `REFUSAL`. -/
def REFUSAL : List Char :=
  cs "I can explain the concepts at a high level, but I can’t provide code or implementation steps on the Free plan. To get runnable examples, please use the premium models (Main/Power or GWEN)."

/-- `enforce_theory_only_output(reply_text)`. -/
def enforce_theory_only_output (r : PyVal) : PyVal :=
  if looks_like_code r then .str REFUSAL else r

/-!  `DISALLOWED_INTENT`, the `(?is)`-flagged input-guard regex.  Matching is
performed on the lower-cased subject; `\b` bounds the whole alternation, and
every alternative both starts and ends with a word character, so the left
boundary is "previous character absent or non-word" and the right boundary is
"next character absent or non-word". -/

/-- The fixed action verbs of the first alternative (without `unit[-\s]*test`,
which has internal flexibility and is handled separately). -/
def INTENT_VERBS : List (List Char) :=
  [cs "write", cs "generate", cs "show", cs "give", cs "make", cs "create",
   cs "produce", cs "draft", cs "provide", cs "print", cs "output",
   cs "debug", cs "fix", cs "patch", cs "refactor", cs "optimise",
   cs "optimize", cs "run", cs "execute", cs "compile", cs "build", cs "test"]

/-- The single-literal code nouns of the first alternative. -/
def INTENT_NOUNS : List (List Char) :=
  [cs "code", cs "script", cs "snippet", cs "example", cs "implementation",
   cs "program", cs "function", cs "class", cs "migration", cs "endpoint",
   cs "dockerfile", cs "yaml", cs "regex", cs "pattern", cs "schema",
   cs "table", cs "trigger"]

/-- The language names of the third alternative. -/
def INTENT_LANGS : List (List Char) :=
  [cs "html", cs "css", cs "js", cs "javascript", cs "typescript", cs "sql"]

/-- The code words of the third alternative. -/
def INTENT_CODEWORDS : List (List Char) :=
  [cs "code", cs "snippet", cs "example", cs "template"]

/-- Remainders after `\s*` consumes a prefix of `s` (every run length from
zero up to the leading whitespace run). -/
def wsStarSuf : List Char → List (List Char)
  | [] => [[]]
  | c :: r => (c :: r) :: (if pySpace c then wsStarSuf r else [])

/-- Remainders after `\s+` (at least one whitespace character). -/
def wsPlusSuf : List Char → List (List Char)
  | [] => []
  | c :: r => if pySpace c then wsStarSuf r else []

/-- Remainders after `[-\s]*`. -/
def dashWsSuf : List Char → List (List Char)
  | [] => [[]]
  | c :: r => (c :: r) :: (if c = '-' || pySpace c then dashWsSuf r else [])

/-- Remainders after `.{0,n}` with `(?s)` (drop up to `n` arbitrary
characters). -/
def gapSuf : Nat → List Char → List (List Char)
  | _, [] => [[]]
  | 0, s => [s]
  | n + 1, c :: r => (c :: r) :: gapSuf n r

/-- Remainders after matching literal `a`, then `\s*`, then literal `b`. -/
def lit2Rem (a b : List Char) (s : List Char) : List (List Char) :=
  if litPre a s then
    (wsStarSuf (s.drop a.length)).filterMap fun s2 =>
      if litPre b s2 then some (s2.drop b.length) else none
  else []

/-- Remainders after matching one of the noun alternatives at the head of
`s`, including the three `\s*`-split nouns. -/
def nounRem (s : List Char) : List (List Char) :=
  (INTENT_NOUNS.filterMap fun n => if litPre n s then some (s.drop n.length) else none)
    ++ lit2Rem (cs "sql") (cs "query") s
    ++ lit2Rem (cs "api") (cs "route") s
    ++ lit2Rem (cs "stored") (cs "procedure") s

/-- `\s+` then `.{0,80}?` then a noun then the closing `\b`, after a verb. -/
def afterVerb (rest : List Char) : Bool :=
  (wsPlusSuf rest).any fun s2 =>
    (gapSuf 80 s2).any fun s3 =>
      (nounRem s3).any rightBok

/-- The first alternative (verb, gap, noun) matched at `s`. -/
def alt1At (s : List Char) : Bool :=
  (INTENT_VERBS.any fun v => litPre v s && afterVerb (s.drop v.length)) ||
    (litPre (cs "unit") s &&
      (dashWsSuf (s.drop 4)).any fun s1 =>
        litPre (cs "test") s1 && afterVerb (s1.drop 4))

/-- The second alternative, `pseudocode|algorithm\s*steps`, matched at `s`. -/
def alt2At (s : List Char) : Bool :=
  (litPre (cs "pseudocode") s && rightBok (s.drop 10)) ||
    (litPre (cs "algorithm") s &&
      (wsStarSuf (s.drop 9)).any fun s2 =>
        litPre (cs "steps") s2 && rightBok (s2.drop 5))

/-- The third alternative, a language name then `\s+` then a code word,
matched at `s`. -/
def alt3At (s : List Char) : Bool :=
  INTENT_LANGS.any fun l =>
    litPre l s &&
      ((wsPlusSuf (s.drop l.length)).any fun s2 =>
        INTENT_CODEWORDS.any fun w => litPre w s2 && rightBok (s2.drop w.length))

/-- Scan every position of the subject for a match of `f` whose left `\b`
holds (the previous character, tracked as its word-ness, must be non-word). -/
def scanB (f : List Char → Bool) (prevW : Bool) : List Char → Bool
  | [] => false
  | c :: r => ((!prevW) && f (c :: r)) || scanB f (wordc c) r

/-- All three alternatives at one position. -/
def intentAt (s : List Char) : Bool :=
  alt1At s || alt2At s || alt3At s

/-- `DISALLOWED_INTENT.search(text)` as a boolean. -/
def intentSearch (t : List Char) : Bool :=
  scanB intentAt false (t.map lowc)

/-- Search restricted to the verb-gap-noun alternative. -/
def alt1Search (t : List Char) : Bool :=
  scanB alt1At false (t.map lowc)

/-- Search restricted to the `pseudocode|algorithm\s*steps` alternative. -/
def alt2Search (t : List Char) : Bool :=
  scanB alt2At false (t.map lowc)

/-- Search restricted to the language-plus-code-word alternative. -/
def alt3Search (t : List Char) : Bool :=
  scanB alt3At false (t.map lowc)

/-!  Mode detection and the prompt table.  -/

/-- `detect_mode(text)`, the Mode Router: a cascade of case-insensitive
substring tests, transcribed in source order. -/
def detect_mode (text : List Char) : List Char :=
  let t := text.map lowc
  if containsSub (cs "keyword") t || containsSub (cs "cluster") t then cs "keywords"
  else if containsSub (cs "outline") t || containsSub (cs "h1") t || containsSub (cs "h2") t then cs "outline"
  else if containsSub (cs "brief") t || containsSub (cs "content brief") t then cs "brief"
  else if containsSub (cs "meta") t || containsSub (cs "title tag") t || containsSub (cs "meta description") t then cs "meta"
  else if containsSub (cs "research") t || containsSub (cs "sources") t || containsSub (cs "summary") t then cs "research"
  else if containsSub (cs "article") t || containsSub (cs "blog post") t || containsSub (cs "write about") t then cs "article"
  else cs "general"

/-- The ordered (trigger keywords → mode) table of the router, as the spec
presents it; used to state that `detect_mode` returns the first match of this
priority list. -/
def MODE_RULES : List (List (List Char) × List Char) :=
  [([cs "keyword", cs "cluster"], cs "keywords"),
   ([cs "outline", cs "h1", cs "h2"], cs "outline"),
   ([cs "brief", cs "content brief"], cs "brief"),
   ([cs "meta", cs "title tag", cs "meta description"], cs "meta"),
   ([cs "research", cs "sources", cs "summary"], cs "research"),
   ([cs "article", cs "blog post", cs "write about"], cs "article")]

/-- Walk an ordered rule table and return the mode of the first rule whose
keywords hit the text, falling back to `general`. -/
def firstRouteAux (t : List Char) : List (List (List Char) × List Char) → List Char
  | [] => cs "general"
  | r :: rs => if r.1.any (fun kw => containsSub kw t) then r.2 else firstRouteAux t rs

/-- The first rule of `MODE_RULES` whose keywords hit the lower-cased text,
falling back to `general`: the spec-side formulation of the router. -/
def routeSpec (text : List Char) : List Char :=
  firstRouteAux (text.map lowc) MODE_RULES

/-- `EXTRA_GUARD_PROMPT`, prepended to every task prompt. -/
def EXTRA_GUARD_PROMPT : List Char :=
  cs "You are Nova (Free). Provide conceptual/theoretical explanations only. Do NOT provide source code, shell/SQL commands, configuration blocks, pseudocode, payloads, or step-by-step implementations. Never use fenced code blocks. If the user asks for code or implementation, reply ONLY with: \"I can explain the concepts at a high level, but I can’t provide code or implementation steps on the Free plan. To get runnable examples, please use the premium models (Main/Power or GWEN).\""

/-- The `TASK_PROMPTS` table. -/
def TASK_PROMPTS : List (List Char × List Char) :=
  [(cs "general", cs "You are Nova (Free), a friendly assistant for general conversation, research, and SEO/content help. Answer clearly and concisely. Avoid fluff."),
   (cs "keywords", cs "Act as an SEO specialist. Given a topic, produce keyword clusters with head terms, long-tails, search intent, and suggested internal links in a compact Markdown table."),
   (cs "outline", cs "Act as an SEO content strategist. Create an H1–H3 outline with compelling headings, FAQs (People Also Ask), and rich snippet opportunities."),
   (cs "brief", cs "Create a content brief: audience, angle, goals, target keywords, intent, competitor notes, H2/H3 headings, internal links, and a clear CTA."),
   (cs "article", cs "Write a well-structured article with H2/H3 sections, short paragraphs, scannable lists, and a brief intro & conclusion. Neutral, informative tone."),
   (cs "meta", cs "Generate 5 SEO titles (<=60 chars) and 5 meta descriptions (<=155 chars) for the given topic. Include the primary keyword naturally."),
   (cs "research", cs "Summarize credible sources into a brief: key findings, quick stats, caveats, and suggested further reading. Avoid hallucination; say when evidence is lacking.")]

/-- `TASK_PROMPTS.get(mode, TASK_PROMPTS["general"])`. -/
def taskPromptFor (mode : List Char) : List Char :=
  match TASK_PROMPTS.find? (fun e => e.1 == mode) with
  | some e => e.2
  | none => cs "You are Nova (Free), a friendly assistant for general conversation, research, and SEO/content help. Answer clearly and concisely. Avoid fluff."

/-- The system prompt assembled for a chosen mode,
`EXTRA_GUARD_PROMPT + "\n\n" + base_prompt`. -/
def systemPromptFor (mode : List Char) : List Char :=
  EXTRA_GUARD_PROMPT ++ cs "\n\n" ++ taskPromptFor mode

/-!  The `/api/chat` route, `api_chat`.  -/

/-- One entry of the request's `messages` array. -/
structure Message where
  role : List Char
  content : List Char
deriving DecidableEq

/-- The decoded `messages` field of the request body: absent (or a falsy
value, which `or []` turns into the empty list), present but not a list, or
an actual list. -/
inductive MessagesVal where
  | absent
  | nonList
  | list (ms : List Message)

/-- Token usage as extracted from a completion result. -/
structure ModelUsage where
  prompt_tokens : Option Nat
  completion_tokens : Option Nat
  total_tokens : Option Nat
deriving DecidableEq

/-- The `usage` field of the response envelope. -/
inductive UsageVal where
  | blockedCoding                      -- {"blocked": True, "reason": "coding_request"}
  | offline                            -- {"mode": "offline"}
  | fromModel (u : Option ModelUsage)  -- the completion's usage, or null
  | err                                -- {"error": True}
deriving DecidableEq

/-- What the route returns: a 400 error, or a 200 envelope
`{reply, usage, mode}`. -/
inductive ChatResponse where
  | badRequest (error : List Char)
  | ok (reply : PyVal) (usage : UsageVal) (mode : List Char)
deriving DecidableEq

/-- Behaviour of the external completion call: a reply (possibly a non-string
`None` content) with optional usage, or a raised error carrying its
description. -/
inductive CollabBehavior where
  | ok (reply : PyVal) (usage : Option ModelUsage)
  | exn (msg : List Char)

/-- The envelope produced together with the request that was handed to the
completion call, when one was made. -/
structure ChatOutcome where
  resp : ChatResponse
  sent : Option (List Char × List Message)
deriving DecidableEq

/-- `next((m.get("content","") for m in reversed(messages) if m.get("role") == "user"), "")`. -/
def lastUser (ms : List Message) : List Char :=
  match ms.reverse.find? (fun m => m.role == cs "user") with
  | some m => m.content
  | none => []

/-- The fixed blocked-request reply. -/
def BLOCKED_REPLY : List Char :=
  cs "This free version doesn’t provide coding or debugging. For code generation and developer tools, please use the premium models (Main/Power or GWEN). If you’d like, I can outline the approach at a high level."

/-- The `POST /api/chat` handler.  `hasClient` is whether `get_client()`
returned a client (an API key is configured and the OpenAI package is
importable); `collab` is the behaviour of `client.chat.completions.create`
on this request. -/
def api_chat (hasClient : Bool) (collab : CollabBehavior) (body : MessagesVal) : ChatOutcome :=
  match body with
  | .absent => { resp := .badRequest (cs "messages[] required"), sent := none }
  | .nonList => { resp := .badRequest (cs "messages[] required"), sent := none }
  | .list ms =>
    if ms.isEmpty then { resp := .badRequest (cs "messages[] required"), sent := none }
    else
      let last_user := lastUser ms
      if intentSearch last_user then
        { resp := .ok (.str BLOCKED_REPLY) .blockedCoding (cs "blocked"), sent := none }
      else
        let mode := detect_mode last_user
        let system_prompt := systemPromptFor mode
        let last_user := if 6000 < last_user.length then last_user.take 6000 ++ cs " [...]" else last_user
        if !hasClient then
          { resp := .ok (.str (cs "[Nova Free • offline " ++ mode ++ cs "] " ++ last_user)) .offline mode,
            sent := none }
        else
          let sentReq := (system_prompt, { role := cs "system", content := system_prompt } :: ms)
          match collab with
          | .ok reply usage =>
            { resp := .ok (enforce_theory_only_output reply) (.fromModel usage) mode,
              sent := some sentReq }
          | .exn msg =>
            { resp := .ok (.str (cs "Model error: " ++ msg)) .err mode,
              sent := some sentReq }

/-- The `mode` field of a response, when it is a 200 envelope. -/
def modeOf : ChatResponse → Option (List Char)
  | .badRequest _ => none
  | .ok _ _ m => some m

/-- The verb set of the spec's disallowed-intent description, as bare words
(used to state that a text mentions no action verb at all). -/
def CLAIM_VERBS : List (List Char) :=
  INTENT_VERBS ++ [cs "unit-test", cs "unit test"]

/-- The noun set of the spec's disallowed-intent description, as bare words. -/
def CLAIM_NOUNS : List (List Char) :=
  INTENT_NOUNS ++ [cs "sql query", cs "api route", cs "stored procedure"]

/-- Does the lower-cased text contain any of the given words as a substring?
(an over-approximation of "mentions a verb/noun", deliberately ignoring word
boundaries and spans, so that its failure certifies the absence of any verb
or noun occurrence). -/
def containsAnyWord (ws : List (List Char)) (t : List Char) : Bool :=
  ws.any fun w => containsSub w (t.map lowc)

/-- A 7000-character user message (opaque to `simp`, which would otherwise
try to expand the `replicate` literal). -/
def longQ : List Char := List.replicate 7000 'q'

/-!  Theorems.  -/

set_option maxRecDepth 40000 in
/-- Claim C9: the Output Guard does not suppress the fixed refusal string —
it passes it through unchanged — and hence applying the guard twice to any
input yields the same emitted text as applying it once. -/
theorem C9_guard_idempotent :
    looks_like_code (.str REFUSAL) = false ∧
    enforce_theory_only_output (.str REFUSAL) = .str REFUSAL ∧
    ∀ x : PyVal,
      enforce_theory_only_output (enforce_theory_only_output x) =
        enforce_theory_only_output x := by
  have h : looks_like_code (.str REFUSAL) = false := by decide
  refine ⟨h, by simp [enforce_theory_only_output, h], ?_⟩
  intro x
  by_cases hx : looks_like_code x = true
  · simp [enforce_theory_only_output, hx, h]
  · have hx' : looks_like_code x = false := by simpa using hx
    simp [enforce_theory_only_output, hx']

/-- Claim C5: a reply the guard does not suppress is emitted exactly as it
came in, and non-string or blank input is never suppressed and is passed
through unchanged. -/
theorem C5_guard_passthrough :
    (∀ r : PyVal, looks_like_code r = false →
      enforce_theory_only_output r = r) ∧
    (looks_like_code .notStr = false ∧
      enforce_theory_only_output .notStr = .notStr) ∧
    (∀ t : List Char, blankStr t = true →
      looks_like_code (.str t) = false ∧
        enforce_theory_only_output (.str t) = .str t) := by
  refine ⟨?_, ⟨rfl, rfl⟩, ?_⟩
  · intro r h
    simp [enforce_theory_only_output, h]
  · intro t h
    have h1 : looks_like_code (.str t) = false := by
      simp [looks_like_code, looks_like_code_str, h]
    exact ⟨h1, by simp [enforce_theory_only_output, h1]⟩

/-- Witness for C5 at concrete inputs. -/
theorem C5_guard_passthrough_witness :
    enforce_theory_only_output (.str (cs "hello world")) = .str (cs "hello world") ∧
    blankStr (cs "   ") = true ∧
    looks_like_code (.str (cs "   ")) = false ∧
    enforce_theory_only_output (.str (cs "   ")) = .str (cs "   ") :=
  ⟨C5_guard_passthrough.1 _ (by decide), by decide,
   (C5_guard_passthrough.2.2 _ (by decide)).1,
   (C5_guard_passthrough.2.2 _ (by decide)).2⟩

/-- Claim C3: whenever the last user message matches the disallowed-intent
regex, the route answers the fixed blocked envelope — reply the fixed
no-coding message, usage `{blocked: true, reason: coding_request}`, mode
`"blocked"` — and nothing is ever sent to the completion collaborator,
whatever the client configuration and collaborator behaviour. -/
theorem C3_blocked_envelope (hasClient : Bool) (collab : CollabBehavior)
    (ms : List Message) (h : intentSearch (lastUser ms) = true) :
    api_chat hasClient collab (.list ms) =
      { resp := .ok (.str BLOCKED_REPLY) .blockedCoding (cs "blocked"),
        sent := none } := by
  cases ms with
  | nil => exact absurd h (by decide)
  | cons m ms' => simp [api_chat, h]

/-- Witness for C3: "write a script" is blocked. -/
theorem C3_blocked_envelope_witness :
    intentSearch (lastUser [{ role := cs "user", content := cs "write a script" }]) = true ∧
    api_chat true (.ok (.str (cs "sure")) none)
        (.list [{ role := cs "user", content := cs "write a script" }]) =
      { resp := .ok (.str BLOCKED_REPLY) .blockedCoding (cs "blocked"),
        sent := none } :=
  ⟨by decide, C3_blocked_envelope true (.ok (.str (cs "sure")) none) _ (by decide)⟩

/-- Claim C8: when the completion call raises, the route still returns a 200
envelope whose reply embeds the failure description after `"Model error: "`,
whose usage is `{error: true}` and whose mode is the already-chosen mode;
`api_chat` is a total function, so the request never propagates a fault. -/
theorem C8_collab_failure (ms : List Message) (emsg : List Char)
    (hne : ms ≠ []) (h : intentSearch (lastUser ms) = false) :
    api_chat true (.exn emsg) (.list ms) =
      { resp := .ok (.str (cs "Model error: " ++ emsg)) .err
          (detect_mode (lastUser ms)),
        sent := some (systemPromptFor (detect_mode (lastUser ms)),
          { role := cs "system",
            content := systemPromptFor (detect_mode (lastUser ms)) } :: ms) } := by
  cases ms with
  | nil => exact absurd rfl hne
  | cons m ms' => simp [api_chat, h]

/-- Witness for C8 at a concrete request. -/
theorem C8_collab_failure_witness :
    [({ role := cs "user", content := cs "hi" } : Message)] ≠ [] ∧
    intentSearch (lastUser [{ role := cs "user", content := cs "hi" }]) = false ∧
    api_chat true (.exn (cs "boom"))
        (.list [{ role := cs "user", content := cs "hi" }]) =
      { resp := .ok (.str (cs "Model error: " ++ cs "boom")) .err
          (detect_mode (lastUser [{ role := cs "user", content := cs "hi" }])),
        sent := some (systemPromptFor (detect_mode (lastUser [{ role := cs "user", content := cs "hi" }])),
          { role := cs "system",
            content := systemPromptFor (detect_mode (lastUser [{ role := cs "user", content := cs "hi" }])) } ::
            [{ role := cs "user", content := cs "hi" }]) } :=
  ⟨by decide, by decide, C8_collab_failure _ _ (by decide) (by decide)⟩

/-- Claim C7: an absent, non-list or empty `messages` body is answered with
the 400 error, while a non-empty list holding no user-role message proceeds:
the last-user text is empty, the classifier allows it, and the router falls
back to mode `general`. -/
theorem C7_validation_and_no_user (hasClient : Bool) (collab : CollabBehavior)
    (ms : List Message) (hne : ms ≠ [])
    (hnouser : ∀ m ∈ ms, m.role ≠ cs "user") :
    (api_chat hasClient collab .absent).resp = .badRequest (cs "messages[] required") ∧
    (api_chat hasClient collab .nonList).resp = .badRequest (cs "messages[] required") ∧
    (api_chat hasClient collab (.list [])).resp = .badRequest (cs "messages[] required") ∧
    lastUser ms = [] ∧
    intentSearch (lastUser ms) = false ∧
    detect_mode (lastUser ms) = cs "general" ∧
    modeOf (api_chat hasClient collab (.list ms)).resp = some (cs "general") := by
  have hlast : lastUser ms = [] := by
    have : ms.reverse.find? (fun m => m.role == cs "user") = none := by
      rw [List.find?_eq_none]
      intro m hm
      simpa using hnouser m (List.mem_reverse.mp hm)
    simp [lastUser, this]
  refine ⟨rfl, rfl, rfl, hlast, ?_, ?_, ?_⟩
  · rw [hlast]; decide
  · rw [hlast]; decide
  · cases ms with
    | nil => exact absurd rfl hne
    | cons m ms' =>
      have h1 : intentSearch (lastUser (m :: ms')) = false := by rw [hlast]; decide
      have h2 : detect_mode (lastUser (m :: ms')) = cs "general" := by rw [hlast]; decide
      cases hasClient <;> cases collab <;>
        simp [api_chat, h1, h2, modeOf]

/-- Witness for C7: a single assistant-role message. -/
theorem C7_validation_and_no_user_witness :
    lastUser [{ role := cs "assistant", content := cs "hi" }] = [] ∧
    intentSearch (lastUser [{ role := cs "assistant", content := cs "hi" }]) = false ∧
    modeOf (api_chat false (.ok (.str (cs "x")) none)
        (.list [{ role := cs "assistant", content := cs "hi" }])).resp =
      some (cs "general") :=
  ⟨(C7_validation_and_no_user false (.ok (.str (cs "x")) none) _ (by decide)
      (by decide)).2.2.2.1,
   (C7_validation_and_no_user false (.ok (.str (cs "x")) none) _ (by decide)
      (by decide)).2.2.2.2.1,
   (C7_validation_and_no_user false (.ok (.str (cs "x")) none) _ (by decide)
      (by decide)).2.2.2.2.2.2⟩

/-- Claim C6: the Mode Router is the first-match walk of the fixed priority
table keywords, outline, brief, meta, research, article, with fallback
`general`; in particular a message holding both "outline" and "brief" routes
to `outline`, and "hello there" routes to `general`. -/
theorem C6_router_priority :
    (∀ text : List Char, detect_mode text = routeSpec text) ∧
    detect_mode (cs "please write an outline and a brief") = cs "outline" ∧
    detect_mode (cs "hello there") = cs "general" := by
  refine ⟨?_, by decide, by decide⟩
  intro text
  simp [detect_mode, routeSpec, firstRouteAux, MODE_RULES, List.any, or_assoc]

/-- The boundary-tracking scan of the three-way alternation is the disjunction
of the three scans. -/
theorem intentAux_decompose (tl : List Char) : ∀ b : Bool,
    scanB intentAt b tl = (scanB alt1At b tl || scanB alt2At b tl || scanB alt3At b tl) := by
  induction tl with
  | nil => intro b; rfl
  | cons c r ih =>
    intro b
    simp only [scanB, intentAt, ih, Bool.and_or_distrib_left]
    cases !b && alt1At (c :: r) <;> cases !b && alt2At (c :: r) <;>
      cases !b && alt3At (c :: r) <;> cases scanB alt1At (wordc c) r <;>
      cases scanB alt2At (wordc c) r <;> cases scanB alt3At (wordc c) r <;> rfl

/-- `DISALLOWED_INTENT` fires exactly when one of its three alternative
families fires. -/
theorem intentSearch_decompose (t : List Char) :
    intentSearch t = (alt1Search t || alt2Search t || alt3Search t) :=
  intentAux_decompose (t.map lowc) false

/-- Counterexample to claim C2 as stated: "algorithm steps" mentions no
action verb of the fixed verb set and no code noun of the fixed noun set (not
even as bare substrings, let alone within an 80-character span), yet the
intent classifier blocks it. -/
theorem C2_counterexample :
    containsAnyWord CLAIM_VERBS (cs "algorithm steps") = false ∧
    containsAnyWord CLAIM_NOUNS (cs "algorithm steps") = false ∧
    intentSearch (cs "algorithm steps") = true := by
  refine ⟨by decide, by decide, by decide⟩

/-- Claim C2 as amended: a message on which the verb-gap-noun family fails
and which also triggers neither the literal `pseudocode`/`algorithm steps`
family nor the language-name-plus-code-word family is classified as allowed;
in particular "What is Python?" is allowed. -/
theorem C2_allowed_no_trigger (t : List Char)
    (h1 : alt1Search t = false) (h2 : alt2Search t = false)
    (h3 : alt3Search t = false) :
    intentSearch t = false ∧ intentSearch (cs "What is Python?") = false := by
  refine ⟨?_, by decide⟩
  rw [intentSearch_decompose, h1, h2, h3]
  rfl

/-- Witness for the amended C2 at "What is Python?". -/
theorem C2_allowed_no_trigger_witness :
    alt1Search (cs "What is Python?") = false ∧
    alt2Search (cs "What is Python?") = false ∧
    alt3Search (cs "What is Python?") = false ∧
    intentSearch (cs "What is Python?") = false :=
  ⟨by decide, by decide, by decide,
   (C2_allowed_no_trigger (cs "What is Python?") (by decide) (by decide)
      (by decide)).1⟩

/-!  Evaluation lemmas on a long all-`'q'` message, used for the truncation
claim: a 7000-character run of word characters offers no word boundary past
position zero and starts with a letter matching no alternative, so the intent
regex cannot fire on it, and it contains none of the router keywords.  -/

/-- A literal whose first character differs from `c` does not match at a
position starting with `c`. -/
theorem litPre_head_ne (w : List Char) (c : Char) (s : List Char)
    (h : w.head? ≠ some c) (hne : w ≠ []) : litPre w (c :: s) = false := by
  cases w with
  | nil => exact absurd rfl hne
  | cons a as =>
    have ha : a ≠ c := by simpa using h
    simp [litPre, ha]

/-- A word whose first character differs from `c` never occurs in `replicate n c`. -/
theorem containsSub_replicate (w : List Char) (c : Char)
    (h : w.head? ≠ some c) (hne : w ≠ []) :
    ∀ n, containsSub w (List.replicate n c) = false := by
  intro n
  induction n with
  | zero =>
    cases w with
    | nil => exact absurd rfl hne
    | cons a as => rfl
  | succ n ih =>
    simp [List.replicate_succ, containsSub, litPre_head_ne w c _ h hne, ih]

/-- The router sees none of its keywords in an all-`'q'` text. -/
theorem detect_mode_replicate_q (n : Nat) :
    detect_mode (List.replicate n 'q') = cs "general" := by
  have hmap : (List.replicate n 'q').map lowc = List.replicate n 'q' := by
    rw [List.map_replicate]; rfl
  simp only [detect_mode, hmap]
  rw [containsSub_replicate (cs "keyword") 'q' (by decide) (by decide) n,
      containsSub_replicate (cs "cluster") 'q' (by decide) (by decide) n,
      containsSub_replicate (cs "outline") 'q' (by decide) (by decide) n,
      containsSub_replicate (cs "h1") 'q' (by decide) (by decide) n,
      containsSub_replicate (cs "h2") 'q' (by decide) (by decide) n,
      containsSub_replicate (cs "brief") 'q' (by decide) (by decide) n,
      containsSub_replicate (cs "content brief") 'q' (by decide) (by decide) n,
      containsSub_replicate (cs "meta") 'q' (by decide) (by decide) n,
      containsSub_replicate (cs "title tag") 'q' (by decide) (by decide) n,
      containsSub_replicate (cs "meta description") 'q' (by decide) (by decide) n,
      containsSub_replicate (cs "research") 'q' (by decide) (by decide) n,
      containsSub_replicate (cs "sources") 'q' (by decide) (by decide) n,
      containsSub_replicate (cs "summary") 'q' (by decide) (by decide) n,
      containsSub_replicate (cs "article") 'q' (by decide) (by decide) n,
      containsSub_replicate (cs "blog post") 'q' (by decide) (by decide) n,
      containsSub_replicate (cs "write about") 'q' (by decide) (by decide) n]
  simp

/-- No alternative of the intent regex can match starting at a `'q'`. -/
theorem intentAt_q (s : List Char) : intentAt ('q' :: s) = false := by
  simp only [intentAt, alt1At, alt2At, alt3At, INTENT_VERBS, INTENT_LANGS,
    List.any_cons, List.any_nil]
  rw [litPre_head_ne (cs "write") 'q' s (by decide) (by decide),
      litPre_head_ne (cs "generate") 'q' s (by decide) (by decide),
      litPre_head_ne (cs "show") 'q' s (by decide) (by decide),
      litPre_head_ne (cs "give") 'q' s (by decide) (by decide),
      litPre_head_ne (cs "make") 'q' s (by decide) (by decide),
      litPre_head_ne (cs "create") 'q' s (by decide) (by decide),
      litPre_head_ne (cs "produce") 'q' s (by decide) (by decide),
      litPre_head_ne (cs "draft") 'q' s (by decide) (by decide),
      litPre_head_ne (cs "provide") 'q' s (by decide) (by decide),
      litPre_head_ne (cs "print") 'q' s (by decide) (by decide),
      litPre_head_ne (cs "output") 'q' s (by decide) (by decide),
      litPre_head_ne (cs "debug") 'q' s (by decide) (by decide),
      litPre_head_ne (cs "fix") 'q' s (by decide) (by decide),
      litPre_head_ne (cs "patch") 'q' s (by decide) (by decide),
      litPre_head_ne (cs "refactor") 'q' s (by decide) (by decide),
      litPre_head_ne (cs "optimise") 'q' s (by decide) (by decide),
      litPre_head_ne (cs "optimize") 'q' s (by decide) (by decide),
      litPre_head_ne (cs "run") 'q' s (by decide) (by decide),
      litPre_head_ne (cs "execute") 'q' s (by decide) (by decide),
      litPre_head_ne (cs "compile") 'q' s (by decide) (by decide),
      litPre_head_ne (cs "build") 'q' s (by decide) (by decide),
      litPre_head_ne (cs "test") 'q' s (by decide) (by decide),
      litPre_head_ne (cs "unit") 'q' s (by decide) (by decide),
      litPre_head_ne (cs "pseudocode") 'q' s (by decide) (by decide),
      litPre_head_ne (cs "algorithm") 'q' s (by decide) (by decide),
      litPre_head_ne (cs "html") 'q' s (by decide) (by decide),
      litPre_head_ne (cs "css") 'q' s (by decide) (by decide),
      litPre_head_ne (cs "js") 'q' s (by decide) (by decide),
      litPre_head_ne (cs "javascript") 'q' s (by decide) (by decide),
      litPre_head_ne (cs "typescript") 'q' s (by decide) (by decide),
      litPre_head_ne (cs "sql") 'q' s (by decide) (by decide)]
  simp

/-- Positions after the first of an all-`'q'` text have no left word
boundary, so no match can start there. -/
theorem scanB_true_replicate_q (f : List Char → Bool) :
    ∀ n, scanB f true (List.replicate n 'q') = false := by
  intro n
  induction n with
  | zero => rfl
  | succ n ih =>
    have hw : wordc 'q' = true := by decide
    simp [List.replicate_succ, scanB, hw, ih]

/-- The disallowed-intent regex does not fire on an all-`'q'` text. -/
theorem intentSearch_replicate_q (n : Nat) :
    intentSearch (List.replicate n 'q') = false := by
  have hmap : (List.replicate n 'q').map lowc = List.replicate n 'q' := by
    rw [List.map_replicate]; rfl
  unfold intentSearch
  rw [hmap]
  cases n with
  | zero => rfl
  | succ m =>
    have hw : wordc 'q' = true := by decide
    simp [List.replicate_succ, scanB, intentAt_q, hw, scanB_true_replicate_q]

/-- The intent regex does not fire on `longQ`. -/
theorem intentSearch_longQ : intentSearch longQ = false :=
  intentSearch_replicate_q 7000

/-- The router falls back to `general` on `longQ`. -/
theorem detect_mode_longQ : detect_mode longQ = cs "general" :=
  detect_mode_replicate_q 7000

/-- `longQ` has 7000 characters. -/
theorem longQ_length : longQ.length = 7000 := by
  unfold longQ
  rw [List.length_replicate]

/-- Counterexample to claim C1 as stated: on a 7000-character last user
message, the pair handed to the completion call contains the original
messages list with the full untruncated content — not the 6000-character
capped text with the truncation marker, which has a different length. -/
theorem C1_counterexample :
    (api_chat true (.ok (.str (cs "hello")) none)
        (.list [{ role := cs "user", content := longQ }])).sent =
      some (systemPromptFor (cs "general"),
        [{ role := cs "system", content := systemPromptFor (cs "general") },
         { role := cs "user", content := longQ }]) ∧
    longQ ≠ longQ.take 6000 ++ cs " [...]" := by
  constructor
  · have hl : lastUser [{ role := cs "user", content := longQ }] = longQ := rfl
    simp [api_chat, hl, intentSearch_longQ, detect_mode_longQ]
  · intro h
    have hlen := congrArg List.length h
    have h6 : (cs " [...]").length = 6 := rfl
    rw [List.length_append, List.length_take, longQ_length, h6] at hlen
    omega

/-- Claim C1 as amended: on a non-blocked request whose last user message
exceeds 6000 characters, the completion collaborator receives the original
conversation unmodified (prefixed by the system prompt); the 6000-character
cap with the `" [...]"` marker is applied only to the last-user text embedded
in the offline echo reply.  The intent classification hypothesis is stated
on the original, untruncated text, which is what the route classifies. -/
theorem C1_truncation_behaviour (ms : List Message) (collab : CollabBehavior)
    (hne : ms ≠ []) (hallow : intentSearch (lastUser ms) = false)
    (hlen : 6000 < (lastUser ms).length) :
    (api_chat true collab (.list ms)).sent =
      some (systemPromptFor (detect_mode (lastUser ms)),
        { role := cs "system",
          content := systemPromptFor (detect_mode (lastUser ms)) } :: ms) ∧
    (api_chat false collab (.list ms)).resp =
      .ok (.str (cs "[Nova Free • offline " ++ detect_mode (lastUser ms) ++ cs "] " ++
            ((lastUser ms).take 6000 ++ cs " [...]")))
        .offline (detect_mode (lastUser ms)) := by
  cases ms with
  | nil => exact absurd rfl hne
  | cons m ms' =>
    constructor
    · cases collab <;> simp [api_chat, hallow]
    · simp [api_chat, hallow, hlen]

/-- Witness for the amended C1 at the 7000-character message. -/
theorem C1_truncation_behaviour_witness :
    ([{ role := cs "user", content := longQ }] : List Message) ≠ [] ∧
    intentSearch (lastUser [{ role := cs "user", content := longQ }]) = false ∧
    6000 < (lastUser [{ role := cs "user", content := longQ }]).length ∧
    (api_chat false (.ok (.str (cs "hello")) none)
        (.list [{ role := cs "user", content := longQ }])).resp =
      .ok (.str (cs "[Nova Free • offline " ++
            detect_mode (lastUser [{ role := cs "user", content := longQ }]) ++ cs "] " ++
            ((lastUser [{ role := cs "user", content := longQ }]).take 6000 ++ cs " [...]")))
        .offline (detect_mode (lastUser [{ role := cs "user", content := longQ }])) := by
  have hl : lastUser [{ role := cs "user", content := longQ }] = longQ := rfl
  have hallow : intentSearch (lastUser [{ role := cs "user", content := longQ }]) = false := by
    rw [hl]; exact intentSearch_longQ
  have hlen : 6000 < (lastUser [{ role := cs "user", content := longQ }]).length := by
    rw [hl, longQ_length]; omega
  exact ⟨by simp, hallow, hlen,
    (C1_truncation_behaviour _ (.ok (.str (cs "hello")) none) (by simp) hallow hlen).2⟩

/-!  Structural lemmas about the line decomposition and the matchers, used to
settle the two claims about the guard's aggregate-count fallback tier.  -/

/-- A word character is not whitespace. -/
theorem wordc_not_space {c : Char} (h : wordc c = true) : pySpace c = false := by
  cases hs : pySpace c with
  | false => rfl
  | true =>
    exfalso
    have h6 : c = ' ' ∨ c = '\t' ∨ c = '\n' ∨ c = '\x0d' ∨ c = '\x0b' ∨ c = '\x0c' := by
      simpa [pySpace, or_assoc] using hs
    rcases h6 with rfl | rfl | rfl | rfl | rfl | rfl <;> exact absurd h (by decide)

/-- Lower-casing fixes whitespace. -/
theorem lowc_of_space {c : Char} (h : pySpace c = true) : lowc c = c := by
  have h6 : c = ' ' ∨ c = '\t' ∨ c = '\n' ∨ c = '\x0d' ∨ c = '\x0b' ∨ c = '\x0c' := by
    simpa [pySpace, or_assoc] using h
  rcases h6 with rfl | rfl | rfl | rfl | rfl | rfl <;> decide

/-- A matched non-empty literal pins down the head of the subject. -/
theorem litPre_cons_eq {a : Char} {as s : List Char} (h : litPre (a :: as) s = true) :
    ∃ r, s = a :: r := by
  cases s with
  | nil => cases h
  | cons b r =>
    have h' : a = b ∧ litPre as r = true := by simpa [litPre] using h
    exact ⟨r, by rw [h'.1]⟩

/-- The head of a matched non-empty literal occurs in the subject. -/
theorem litPre_headD_mem {w s : List Char} (hne : w.isEmpty = false)
    (h : litPre w s = true) : w.headD ' ' ∈ s := by
  cases w with
  | nil => simp at hne
  | cons a as =>
    obtain ⟨r, rfl⟩ := litPre_cons_eq h
    simp

/-- The head of a non-empty needle found by `containsSub` occurs in the hay. -/
theorem containsSub_head_mem {a : Char} {as : List Char} :
    ∀ {t : List Char}, containsSub (a :: as) t = true → a ∈ t := by
  intro t
  induction t with
  | nil => intro h; cases h
  | cons c r ih =>
    intro h
    rcases (Bool.or_eq_true ..).mp (by simpa [containsSub] using h) with h' | h'
    · obtain ⟨r', he⟩ := litPre_cons_eq h'
      rw [he]; exact List.mem_cons_self ..
    · exact List.mem_cons_of_mem _ (ih h')

/-- Characters of the CRLF-normalised text come from the text. -/
theorem mem_normCRLF (c : Char) : ∀ (t : List Char), c ∈ normCRLF t → c ∈ t
  | [] => by simp [normCRLF]
  | [a] => by simp [normCRLF]
  | a :: b :: r => by
    by_cases hab : (a = '\x0d' && b = '\n') = true
    · simp only [normCRLF, hab, if_true]
      intro h
      rcases List.mem_cons.mp h with h | h
      · have hb : b = '\n' := by simpa using ((Bool.and_eq_true ..).mp hab).2
        subst h; rw [hb]
        exact List.mem_cons_of_mem _ (List.mem_cons_self ..)
      · exact List.mem_cons_of_mem _ (List.mem_cons_of_mem _ (mem_normCRLF c r h))
    · simp only [normCRLF, hab, if_false]
      intro h
      rcases List.mem_cons.mp h with h | h
      · rw [h]; exact List.mem_cons_self ..
      · exact List.mem_cons_of_mem _ (mem_normCRLF c (b :: r) h)

/-- Characters of any piece of the split come from the text. -/
theorem splitPieces_mem {c : Char} : ∀ {t l : List Char},
    l ∈ splitPieces t → c ∈ l → c ∈ t := by
  intro t
  induction t with
  | nil =>
    intro l hl hc
    simp [splitPieces] at hl
    subst hl; simp at hc
  | cons a r ih =>
    intro l hl hc
    by_cases ha : isBreak a = true
    · simp only [splitPieces, ha, if_true] at hl
      rcases List.mem_cons.mp hl with h | h
      · subst h; simp at hc
      · exact List.mem_cons_of_mem _ (ih h hc)
    · simp only [splitPieces, ha, if_false] at hl
      rcases hsp : splitPieces r with - | ⟨p, ps⟩
      · rw [hsp] at hl
        simp at hl
        subst hl
        simp at hc
        subst hc; exact List.mem_cons_self ..
      · rw [hsp] at hl
        rcases List.mem_cons.mp hl with h | h
        · subst h
          rcases List.mem_cons.mp hc with h' | h'
          · subst h'; exact List.mem_cons_self ..
          · refine List.mem_cons_of_mem _ (ih ?_ h')
            rw [hsp]; exact List.mem_cons_self ..
        · refine List.mem_cons_of_mem _ (ih ?_ hc)
          rw [hsp]; exact List.mem_cons_of_mem _ h

/-- Dropping the trailing empty piece keeps a sublist. -/
theorem dropLastEmpty_sub {ps : List (List Char)} {l : List Char}
    (h : l ∈ dropLastEmpty ps) : l ∈ ps := by
  unfold dropLastEmpty at h
  split at h
  · exact (List.dropLast_prefix ps).subset h
  · exact h

/-- `rstrip` keeps a subset of the characters. -/
theorem rstrip_sub {l : List Char} : rstrip l ⊆ l := by
  intro c hc
  unfold rstrip at hc
  rw [List.mem_reverse] at hc
  exact List.mem_reverse.mp ((List.dropWhile_sublist _).subset hc)

/-- Characters of any split line come from the text. -/
theorem splitlines_mem {t l : List Char} (hl : l ∈ splitlines t) {c : Char}
    (hc : c ∈ l) : c ∈ t :=
  mem_normCRLF c t (splitPieces_mem (dropLastEmpty_sub hl) hc)

/-- A text holding a non-whitespace character is not blank. -/
theorem blankStr_false_of_mem {t : List Char} {c : Char} (hc : c ∈ t)
    (hns : pySpace c = false) : blankStr t = false := by
  cases hb : blankStr t with
  | false => rfl
  | true =>
    exfalso
    have := List.all_eq_true.mp (by simpa [blankStr] using hb) c hc
    rw [hns] at this; cases this

/-- A line ending in `;`, `{` or `}` decomposes around that last character. -/
theorem endsSemi_decomp {l : List Char} (h : endsSemi l = true) :
    ∃ c init, (c = ';' || c = lbr || c = rbr) = true ∧ l = init ++ [c] := by
  rcases List.eq_nil_or_concat l with rfl | ⟨init, c, rfl⟩
  · cases h
  · rw [List.concat_eq_append] at h ⊢
    refine ⟨c, init, ?_, rfl⟩
    unfold endsSemi at h
    rwa [List.getLast?_concat] at h

/-- A line ending in `;`, `{` or `}` holds one of those characters. -/
theorem endsSemi_exists {l : List Char} (h : endsSemi l = true) :
    ∃ c ∈ l, (c = ';' || c = lbr || c = rbr) = true := by
  obtain ⟨c, init, hc, rfl⟩ := endsSemi_decomp h
  exact ⟨c, by simp, hc⟩

/-- A non-empty `takeWhile p` run after skipping whitespace yields a `p`-character
of the line. -/
theorem exists_of_takeWhile_word {p : Char → Bool} {l : List Char}
    (h : ((l.dropWhile pySpace).takeWhile p).isEmpty = false) :
    ∃ c ∈ l, p c = true := by
  rcases hne : (l.dropWhile pySpace).takeWhile p with - | ⟨c, r⟩
  · rw [hne] at h; simp at h
  · have hm : c ∈ (l.dropWhile pySpace).takeWhile p := by
      rw [hne]; exact List.mem_cons_self ..
    refine ⟨c, ?_, List.mem_takeWhile_imp hm⟩
    exact (List.dropWhile_sublist _).subset ((List.takeWhile_sublist _).subset hm)

/-- An assignment-shaped line holds a word character. -/
theorem assignLine_exists {l : List Char} (h : assignLine l = true) :
    ∃ c ∈ l, wordc c = true := by
  simp only [assignLine, Bool.and_eq_true] at h
  exact exists_of_takeWhile_word (by simpa using h.1)

/-- A bare-tag line holds a `'<'`. -/
theorem tagLine_mem {l : List Char} (h : tagLine l = true) : '<' ∈ l := by
  unfold tagLine at h
  split at h
  case _ r heq =>
    have : '<' ∈ l.dropWhile pySpace := by
      rw [heq]; exact List.mem_cons_self ..
    exact (List.dropWhile_sublist _).subset this
  case _ => cases h

/-- A positive fuelled occurrence count certifies an occurrence. -/
theorem countSubPosF_pos_contains {c0 : Char} {nd : List Char} :
    ∀ {fuel : Nat} {l : List Char}, 0 < countSubPosF c0 nd fuel l →
      containsSub (c0 :: nd) l = true := by
  intro fuel
  induction fuel with
  | zero => intro l h; simp [countSubPosF] at h
  | succ n ih =>
    intro l h
    cases l with
    | nil => simp [countSubPosF] at h
    | cons c r =>
      by_cases hp : litPre (c0 :: nd) (c :: r) = true
      · simp [containsSub, hp]
      · rw [countSubPosF, if_neg hp] at h
        simp [containsSub, ih h]

/-- A positive `blocks` count certifies a fence character in the text. -/
theorem blocks_pos_mem {t : List Char} (h : 0 < blocks t) :
    ∃ c ∈ t, pySpace c = false := by
  have hb : blocks t =
      countSubPosF bq [bq, bq] t.length t + countSubPosF '~' ['~', '~'] t.length t := rfl
  rw [hb] at h
  have hsplit : 0 < countSubPosF bq [bq, bq] t.length t ∨
      0 < countSubPosF '~' ['~', '~'] t.length t := by omega
  rcases hsplit with h' | h'
  · exact ⟨bq, containsSub_head_mem (countSubPosF_pos_contains h'), by decide⟩
  · exact ⟨'~', containsSub_head_mem (countSubPosF_pos_contains h'), by decide⟩

/-- Claim C4: the Output Guard suppresses whenever, over the split lines, at
least three end in `;`/`{`/`}`, or at least three are assignment-shaped, or at
least three are bare tags, or any fence delimiter occurs; in particular
`"x;\ny;\nz;"` and ``"```print(1)```"`` are suppressed. -/
theorem C4_guard_fallback (t : List Char)
    (h : 3 ≤ enders t ∨ 3 ≤ assigns t ∨ 3 ≤ tags t ∨ 0 < blocks t) :
    looks_like_code_str t = true ∧
    looks_like_code_str (cs "x;\ny;\nz;") = true ∧
    looks_like_code_str (cs "```print(1)```") = true := by
  refine ⟨?_, by decide, by decide⟩
  have hnb : blankStr t = false := by
    rcases h with h | h | h | h
    · obtain ⟨l, hl, hp⟩ := List.countP_pos_iff.mp (lt_of_lt_of_le (by norm_num) h)
      obtain ⟨l0, hl0, rfl⟩ := List.mem_map.mp hl
      obtain ⟨c, hcl, hcs⟩ := endsSemi_exists hp
      refine blankStr_false_of_mem (splitlines_mem hl0 (rstrip_sub hcl)) ?_
      rcases (Bool.or_eq_true ..).mp hcs with hc | hc
      · rcases (Bool.or_eq_true ..).mp hc with hc' | hc' <;>
          · have : c = _ := of_decide_eq_true hc'
            subst this; decide
      · have : c = rbr := of_decide_eq_true hc
        subst this; decide
    · obtain ⟨l, hl, hp⟩ := List.countP_pos_iff.mp (lt_of_lt_of_le (by norm_num) h)
      obtain ⟨l0, hl0, rfl⟩ := List.mem_map.mp hl
      obtain ⟨c, hcl, hcw⟩ := assignLine_exists hp
      exact blankStr_false_of_mem (splitlines_mem hl0 (rstrip_sub hcl))
        (wordc_not_space hcw)
    · obtain ⟨l, hl, hp⟩ := List.countP_pos_iff.mp (lt_of_lt_of_le (by norm_num) h)
      obtain ⟨l0, hl0, rfl⟩ := List.mem_map.mp hl
      exact blankStr_false_of_mem (splitlines_mem hl0 (rstrip_sub (tagLine_mem hp)))
        (by decide)
    · obtain ⟨c, hct, hcs⟩ := blocks_pos_mem h
      exact blankStr_false_of_mem hct hcs
  by_cases hcp : anyCodePattern t = true
  · simp [looks_like_code_str, hnb, hcp]
  · have hcp' : anyCodePattern t = false := by simpa using hcp
    simp only [looks_like_code_str, hnb, hcp', Bool.false_eq_true, if_false]
    rcases h with h | h | h | h <;> simp [h]

/-- Witness for C4 at a concrete three-ender reply. -/
theorem C4_guard_fallback_witness :
    3 ≤ enders (cs "a;\nb;\nc;") ∧
    looks_like_code_str (cs "a;\nb;\nc;") = true :=
  ⟨by decide, (C4_guard_fallback (cs "a;\nb;\nc;") (Or.inl (by decide))).1⟩

/-!  Each primary pattern needs a non-whitespace character, so the primary
tier never fires on blank text.  -/

/-- Members of `nlTails` are suffixes. -/
theorem nlTails_suffix {t : List Char} : ∀ {s : List Char}, s ∈ nlTails t → s <:+ t := by
  induction t with
  | nil => intro s h; simp [nlTails] at h
  | cons c r ih =>
    intro s h
    by_cases hc : c = '\n'
    · rw [nlTails, if_pos hc] at h
      rcases List.mem_cons.mp h with h | h
      · subst h; exact List.suffix_cons ..
      · exact (ih h).trans (List.suffix_cons ..)
    · rw [nlTails, if_neg hc] at h
      exact (ih h).trans (List.suffix_cons ..)

/-- Anchoring points are made of characters of the text. -/
theorem lineStarts_sub {t s : List Char} (h : s ∈ lineStarts t) : s ⊆ t := by
  rcases List.mem_cons.mp h with h | h
  · subst h; exact fun _ h => h
  · exact (nlTails_suffix h).subset

/-- The three statement terminators are not whitespace. -/
theorem semiChar_not_space {c : Char} (h : (c = ';' || c = lbr || c = rbr) = true) :
    pySpace c = false := by
  have h3 : c = ';' ∨ c = lbr ∨ c = rbr := by simpa [or_assoc] using h
  rcases h3 with rfl | rfl | rfl <;> decide

/-- Pattern 1 needs a fence character. -/
theorem p1_nonblank {t : List Char} (h : p1 t = true) :
    ∃ c ∈ t, pySpace c = false := by
  rw [p1] at h
  rcases (Bool.or_eq_true ..).mp h with h' | h'
  · exact ⟨bq, containsSub_head_mem h', by decide⟩
  · exact ⟨'~', containsSub_head_mem h', by decide⟩

/-- Pattern 2 needs a keyword head character. -/
theorem p2_nonblank {tl : List Char} (h : p2 tl = true) :
    ∃ ch ∈ tl, pySpace ch = false := by
  unfold p2 at h
  obtain ⟨s, hs, hk⟩ := List.any_eq_true.mp h
  obtain ⟨k, hkmem, hlit⟩ := List.any_eq_true.mp hk
  have hfacts : k.isEmpty = false ∧ pySpace (k.headD ' ') = false := by
    revert hkmem
    have hall : ∀ k' ∈ P2_KEYWORDS, k'.isEmpty = false ∧ pySpace (k'.headD ' ') = false := by
      decide
    exact hall k
  have hmem := litPre_headD_mem hfacts.1 hlit
  exact ⟨k.headD ' ', lineStarts_sub hs ((List.dropWhile_sublist _).subset hmem), hfacts.2⟩

/-- Pattern 3 needs a terminator character. -/
theorem p3aux_nonblank : ∀ {t : List Char}, p3aux t = true →
    ∃ c ∈ t, pySpace c = false := by
  intro t
  induction t with
  | nil => intro h; cases h
  | cons c r ih =>
    intro h
    rw [p3aux] at h
    rcases (Bool.or_eq_true ..).mp h with h' | h'
    · exact ⟨c, List.mem_cons_self ..,
        semiChar_not_space ((Bool.and_eq_true ..).mp h').1⟩
    · obtain ⟨c', hc', hn⟩ := ih h'
      exact ⟨c', List.mem_cons_of_mem _ hc', hn⟩

/-- Pattern 4 at an anchoring point needs a word character. -/
theorem p4at_exists {s : List Char} (h : p4at s = true) :
    ∃ c ∈ s, wordc c = true := by
  simp only [p4at, Bool.and_eq_true] at h
  exact exists_of_takeWhile_word (by simpa using h.1)

/-- Pattern 4 needs a word character. -/
theorem p4_nonblank {t : List Char} (h : p4 t = true) :
    ∃ c ∈ t, pySpace c = false := by
  unfold p4 at h
  obtain ⟨s, hs, hat⟩ := List.any_eq_true.mp h
  obtain ⟨c, hc, hcw⟩ := p4at_exists hat
  exact ⟨c, lineStarts_sub hs hc, wordc_not_space hcw⟩

/-- A fixed literal of pattern 5 leaves its head character in the subject. -/
theorem p5lit_mem {prev : Option Char} {lit s : List Char}
    (h : p5lit prev lit s = true) (hne : lit.isEmpty = false) :
    lit.headD ' ' ∈ s :=
  litPre_headD_mem hne ((Bool.and_eq_true ..).mp ((Bool.and_eq_true ..).mp h).1).1

/-- Pattern 5 needs a literal head character. -/
theorem p5aux_nonblank : ∀ {tl : List Char} {prev : Option Char},
    p5aux prev tl = true → ∃ ch ∈ tl, pySpace ch = false := by
  intro tl
  induction tl with
  | nil => intro prev h; cases h
  | cons c r ih =>
    intro prev h
    rw [p5aux] at h
    rcases (Bool.or_eq_true ..).mp h with h' | h'
    · rw [p5at] at h'
      rcases (Bool.or_eq_true ..).mp h' with h2 | h2
      · obtain ⟨lit, hlitmem, hlit⟩ := List.any_eq_true.mp h2
        have hfacts : ∀ l' ∈ P5_LITS, l'.isEmpty = false ∧ pySpace (l'.headD ' ') = false := by
          decide
        exact ⟨lit.headD ' ', p5lit_mem hlit (hfacts lit hlitmem).1,
          (hfacts lit hlitmem).2⟩
      · have hcurl : litPre (cs "curl ") (c :: r) = true :=
          ((Bool.and_eq_true ..).mp ((Bool.and_eq_true ..).mp h2).1).1
        exact ⟨(cs "curl ").headD ' ', litPre_headD_mem (by decide) hcurl, by decide⟩
    · obtain ⟨c', hc', hn⟩ := ih h'
      exact ⟨c', List.mem_cons_of_mem _ hc', hn⟩

/-- Pattern 6 at an anchoring point opens with `'<'`. -/
theorem p6at_mem {s : List Char} (h : p6at s = true) : '<' ∈ s := by
  unfold p6at at h
  split at h
  case _ r heq =>
    have hm : '<' ∈ s.dropWhile pySpace := by
      rw [heq]; exact List.mem_cons_self ..
    exact (List.dropWhile_sublist _).subset hm
  case _ => cases h

/-- Pattern 6 needs a `'<'`. -/
theorem p6_nonblank {t : List Char} (h : p6 t = true) :
    ∃ c ∈ t, pySpace c = false := by
  unfold p6 at h
  obtain ⟨s, hs, hat⟩ := List.any_eq_true.mp h
  exact ⟨'<', lineStarts_sub hs (p6at_mem hat), by decide⟩

/-- A matched inline span opens with a backtick. -/
theorem spanAt_mem {s r : List Char} (h : spanAt s = some r) : bq ∈ s := by
  unfold spanAt at h
  split at h
  case _ c r' =>
    by_cases hc : c = bq
    · subst hc; exact List.mem_cons_self ..
    · rw [if_neg hc] at h; cases h
  case _ => cases h

/-- Pattern 7 at an anchoring point needs a backtick. -/
theorem p7at_mem {s : List Char} (h : p7at s = true) : bq ∈ s := by
  unfold p7at at h
  split at h
  case _ => cases h
  case _ r1 heq => exact spanAt_mem heq

/-- Pattern 7 needs a backtick. -/
theorem p7_nonblank : ∀ {t : List Char}, p7 t = true →
    ∃ c ∈ t, pySpace c = false := by
  intro t
  induction t with
  | nil => intro h; exact absurd h (by decide)
  | cons c r ih =>
    intro h
    rw [p7] at h
    rcases (Bool.or_eq_true ..).mp h with h' | h'
    · exact ⟨bq, p7at_mem h', by decide⟩
    · obtain ⟨c', hc', hn⟩ := ih h'
      exact ⟨c', List.mem_cons_of_mem _ hc', hn⟩

/-- Transport a non-whitespace character of the lower-cased text back to the
text. -/
theorem nonblank_of_map_lowc {t : List Char} {ch : Char}
    (h : ch ∈ t.map lowc) (hns : pySpace ch = false) :
    ∃ c ∈ t, pySpace c = false := by
  obtain ⟨c, hc, rfl⟩ := List.mem_map.mp h
  refine ⟨c, hc, ?_⟩
  cases hcs : pySpace c with
  | false => rfl
  | true => rw [lowc_of_space hcs] at hns; rw [hns] at hcs; cases hcs

/-- A firing primary pattern certifies non-blank text. -/
theorem anyCodePattern_nonblank {t : List Char} (h : anyCodePattern t = true) :
    blankStr t = false := by
  have hex : ∃ c ∈ t, pySpace c = false := by
    simp only [anyCodePattern, Bool.or_eq_true] at h
    rcases h with ((((((h | h) | h) | h) | h) | h) | h)
    · exact p1_nonblank h
    · obtain ⟨ch, hch, hns⟩ := p2_nonblank h
      exact nonblank_of_map_lowc hch hns
    · exact p3aux_nonblank h
    · exact p4_nonblank h
    · obtain ⟨ch, hch, hns⟩ := p5aux_nonblank h
      exact nonblank_of_map_lowc hch hns
    · exact p6_nonblank h
    · obtain ⟨ch, hch, hns⟩ := p7_nonblank h
      exact ⟨ch, hch, hns⟩
  obtain ⟨c, hc, hn⟩ := hex
  exact blankStr_false_of_mem hc hn

/-- On blank text no primary pattern fires. -/
theorem blank_no_pattern {t : List Char} (h : blankStr t = true) :
    anyCodePattern t = false := by
  cases hc : anyCodePattern t with
  | false => rfl
  | true => rw [anyCodePattern_nonblank hc] at h; cases h

/-!  When the only break character occurring in the text is `'\n'`, the split
used by the count tier decomposes the text in lockstep with the positions
scanned by the multiline patterns.  -/

/-- CRLF normalisation is the identity on texts without `'\r'`. -/
theorem normCRLF_eq_self : ∀ (t : List Char), '\x0d' ∉ t → normCRLF t = t
  | [] => fun _ => rfl
  | [_] => fun _ => rfl
  | a :: b :: r => fun h => by
    have ha : a ≠ '\x0d' := fun he => h (he ▸ List.mem_cons_self ..)
    have hcond : (a = '\x0d' && b = '\n') = false := by simp [ha]
    rw [normCRLF, hcond]
    simp only [Bool.false_eq_true, if_false]
    rw [normCRLF_eq_self (b :: r) (fun hb => h (List.mem_cons_of_mem _ hb))]

/-- A break-free text is a single piece. -/
theorem splitPieces_breakFree : ∀ (t : List Char), (∀ c ∈ t, isBreak c = false) →
    splitPieces t = [t]
  | [] => fun _ => rfl
  | a :: r => fun h => by
    have ha : isBreak a = false := h a (List.mem_cons_self ..)
    simp only [splitPieces, ha, Bool.false_eq_true, if_false]
    rw [splitPieces_breakFree r (fun c hc => h c (List.mem_cons_of_mem _ hc))]

/-- Splitting a break-free prefix off at a break character. -/
theorem splitPieces_append_break : ∀ (l : List Char), (∀ c ∈ l, isBreak c = false) →
    ∀ {b : Char}, isBreak b = true → ∀ (rest : List Char),
      splitPieces (l ++ b :: rest) = l :: splitPieces rest
  | [] => fun _ {b} hb rest => by
    simp only [List.nil_append, splitPieces, hb, if_true]
  | a :: l' => fun h {b} hb rest => by
    have ha : isBreak a = false := h a (List.mem_cons_self ..)
    have ih := splitPieces_append_break l' (fun c hc => h c (List.mem_cons_of_mem _ hc))
      hb rest
    simp only [List.cons_append, splitPieces, ha, Bool.false_eq_true, if_false,
      List.append_eq]
    rw [ih]

/-- The head of a `dropWhile` residue fails the predicate. -/
theorem head_dropWhile_false {p : Char → Bool} : ∀ {t : List Char} {b : Char}
    {rest : List Char}, t.dropWhile p = b :: rest → p b = false := by
  intro t
  induction t with
  | nil => intro b rest h; cases h
  | cons a r ih =>
    intro b rest h
    by_cases hp : p a = true
    · rw [List.dropWhile_cons_of_pos hp] at h; exact ih h
    · rw [List.dropWhile_cons_of_neg hp] at h
      cases h
      simpa using hp

/-- Master transfer lemma: when a predicate holds of some piece of the split
and can be transferred to a firing of a whole-text matcher on the piece in
context (`H1`), and the matcher is stable under prepending a full line
(`H2`), a positive piece count makes the matcher fire — provided `'\n'` is
the only break character of the text. -/
theorem piece_to_text (predR textP : List Char → Bool)
    (H1 : ∀ l rest, (∀ c ∈ l, isBreak c = false) →
        (rest = [] ∨ ∃ r', rest = '\n' :: r') → predR l = true →
        textP (l ++ rest) = true)
    (H2 : ∀ l rest, (∀ c ∈ l, isBreak c = false) → textP rest = true →
        textP (l ++ '\n' :: rest) = true) :
    ∀ (t : List Char), (∀ c ∈ t, isBreak c = true → c = '\n') →
      (∃ l ∈ splitPieces t, predR l = true) → textP t = true := by
  intro t hnl hex
  have hsplit : t.takeWhile (fun c => !(isBreak c)) ++ t.dropWhile (fun c => !(isBreak c)) = t :=
    List.takeWhile_append_dropWhile ..
  have hl0bf : ∀ c ∈ t.takeWhile (fun c => !(isBreak c)), isBreak c = false := by
    intro c hc
    simpa using List.mem_takeWhile_imp hc
  rcases hr : t.dropWhile (fun c => !(isBreak c)) with - | ⟨b, rest'⟩
  · have ht : t = t.takeWhile (fun c => !(isBreak c)) := by
      conv_lhs => rw [← hsplit]
      rw [hr, List.append_nil]
    obtain ⟨l, hl, hp⟩ := hex
    rw [ht, splitPieces_breakFree _ (fun c hc => hl0bf c hc)] at hl
    simp at hl
    subst hl
    have hres := H1 _ [] hl0bf (Or.inl rfl) hp
    rw [List.append_nil] at hres
    rw [ht]
    exact hres
  · have hbbreak : isBreak b = true := by
      have := head_dropWhile_false hr
      simpa using this
    have hbmem : b ∈ t := by
      rw [← hsplit, hr]
      exact List.mem_append_right _ (List.mem_cons_self ..)
    have hbn : b = '\n' := hnl b hbmem hbbreak
    subst hbn
    have ht : t = t.takeWhile (fun c => !(isBreak c)) ++ '\n' :: rest' := by
      conv_lhs => rw [← hsplit]
      rw [hr]
    have hsp : splitPieces t = t.takeWhile (fun c => !(isBreak c)) :: splitPieces rest' := by
      conv_lhs => rw [ht]
      exact splitPieces_append_break _ hl0bf (by decide) rest'
    obtain ⟨l, hl, hp⟩ := hex
    rw [hsp] at hl
    rcases List.mem_cons.mp hl with h | h
    · subst h
      have hres := H1 _ ('\n' :: rest') hl0bf (Or.inr ⟨rest', rfl⟩) hp
      rw [ht]
      exact hres
    · have hrest' : ∀ c ∈ rest', isBreak c = true → c = '\n' := by
        intro c hc hcb
        refine hnl c ?_ hcb
        rw [ht]
        exact List.mem_append_right _ (List.mem_cons_of_mem _ hc)
      have hrec : textP rest' = true :=
        piece_to_text predR textP H1 H2 rest' hrest' ⟨l, h, hp⟩
      have hres := H2 _ rest' hl0bf hrec
      rw [ht]
      exact hres
termination_by t => t.length
decreasing_by
  have hlen := congrArg List.length ht
  rw [List.length_append, List.length_cons] at hlen
  omega

/-!  Transfers from a counted per-line shape to the corresponding multiline
pattern firing on the whole text.  -/

/-- `dropWhile` over an append when the run stops inside the first part. -/
theorem dropWhile_append_ne {p : Char → Bool} {A : List Char}
    (h : (A.dropWhile p).isEmpty = false) (B : List Char) :
    (A ++ B).dropWhile p = A.dropWhile p ++ B := by
  rw [List.dropWhile_append, h]
  simp

/-- `takeWhile` over an append when the run stops inside the first part. -/
theorem takeWhile_append_stop {p : Char → Bool} {A : List Char}
    (h : (A.dropWhile p).isEmpty = false) (B : List Char) :
    (A ++ B).takeWhile p = A.takeWhile p := by
  rw [List.takeWhile_append]
  have hne : (A.takeWhile p).length ≠ A.length := by
    intro he
    have h2 := congrArg List.length (List.takeWhile_append_dropWhile p A)
    rw [List.length_append] at h2
    have h0 : (A.dropWhile p).length = 0 := by omega
    rw [List.length_eq_zero.mp h0] at h
    simp at h
  simp [hne]

/-- Every list is its `rstrip` followed by its trailing whitespace run. -/
theorem rstrip_spec (l : List Char) :
    l = rstrip l ++ (l.reverse.takeWhile pySpace).reverse := by
  unfold rstrip
  rw [← List.reverse_append, List.takeWhile_append_dropWhile, List.reverse_reverse]

/-- The trailing run is whitespace. -/
theorem trail_space {l : List Char} :
    ∀ c ∈ (l.reverse.takeWhile pySpace).reverse, pySpace c = true := by
  intro c hc
  rw [List.mem_reverse] at hc
  exact List.mem_takeWhile_imp hc

/-- The trailing run is made of characters of the line. -/
theorem trail_sub {l : List Char} : (l.reverse.takeWhile pySpace).reverse ⊆ l := by
  intro c hc
  rw [List.mem_reverse] at hc
  exact List.mem_reverse.mp ((List.takeWhile_sublist _).subset hc)

/-- `\s*$` absorbs a break-free whitespace run on its left. -/
theorem endsLine_ws_prefix : ∀ {u : List Char},
    (∀ c ∈ u, pySpace c = true ∧ isBreak c = false) →
    ∀ {v : List Char}, endsLine v = true → endsLine (u ++ v) = true := by
  intro u
  induction u with
  | nil => intro _ v hv; simpa
  | cons a u' ih =>
    intro hu v hv
    have ha := hu a (List.mem_cons_self ..)
    have hanl : a ≠ '\n' := by
      intro he; rw [he] at ha; exact absurd ha.2 (by decide)
    rw [List.cons_append, endsLine, if_neg hanl, if_pos ha.1]
    exact ih (fun c hc => hu c (List.mem_cons_of_mem _ hc)) hv

/-- Pattern 3 fires at an explicit terminator position. -/
theorem p3aux_at {c : Char} (hc : (c = ';' || c = lbr || c = rbr) = true)
    {zs : List Char} (hz : endsLine zs = true) :
    ∀ xs : List Char, p3aux (xs ++ c :: zs) = true := by
  intro xs
  induction xs with
  | nil => simp [p3aux, hc, hz]
  | cons x xs' ih => simp [p3aux, ih]

/-- Pattern 3 is stable under prepending text. -/
theorem p3aux_append_left (xs : List Char) {ys : List Char} (h : p3aux ys = true) :
    p3aux (xs ++ ys) = true := by
  induction xs with
  | nil => simpa
  | cons x xs' ih => simp [p3aux, ih]

/-- A counted terminator line makes pattern 3 fire on the line in context. -/
theorem p3_transfer (l rest : List Char) (hl : ∀ c ∈ l, isBreak c = false)
    (hrest : rest = [] ∨ ∃ r', rest = '\n' :: r')
    (h : endsSemi (rstrip l) = true) : p3aux (l ++ rest) = true := by
  obtain ⟨c, init, hc, hr⟩ := endsSemi_decomp h
  have hel : endsLine ((l.reverse.takeWhile pySpace).reverse ++ rest) = true := by
    apply endsLine_ws_prefix
    · intro x hx
      exact ⟨trail_space x hx, hl x (trail_sub hx)⟩
    · rcases hrest with rfl | ⟨r', rfl⟩
      · rfl
      · rw [endsLine, if_pos rfl]
  have hdec : l ++ rest = init ++ c :: ((l.reverse.takeWhile pySpace).reverse ++ rest) := by
    conv_lhs => rw [rstrip_spec l, hr]
    simp
  rw [hdec]
  exact p3aux_at hc hel init

/-- Pattern 3 is stable under prepending a full line. -/
theorem p3_H2 (l rest : List Char) (_ : ∀ c ∈ l, isBreak c = false)
    (h : p3aux rest = true) : p3aux (l ++ '\n' :: rest) = true := by
  apply p3aux_append_left
  simp [p3aux, h]

/-- A positive ender count makes pattern 3 fire, on `'\n'`-only text. -/
theorem enders_pos_p3 {t : List Char} (hnl : ∀ c ∈ t, isBreak c = true → c = '\n')
    (h : 0 < enders t) : p3 t = true := by
  obtain ⟨l, hl, hp⟩ := List.countP_pos_iff.mp h
  obtain ⟨l0, hl0, rfl⟩ := List.mem_map.mp hl
  have hnoCR : '\x0d' ∉ t := by
    intro hcm
    exact absurd (hnl _ hcm (by decide)) (by decide)
  have hl0p : l0 ∈ splitPieces t := by
    have hmem := dropLastEmpty_sub hl0
    rwa [normCRLF_eq_self t hnoCR] at hmem
  exact piece_to_text (fun l' => endsSemi (rstrip l')) p3aux p3_transfer p3_H2 t hnl
    ⟨l0, hl0p, hp⟩

/-- Patterns anchored at `(?m)^` fire when they fire at the head anchor. -/
theorem any_lineStarts_head {f : List Char → Bool} {t : List Char}
    (h : f t = true) : (lineStarts t).any f = true :=
  List.any_eq_true.mpr ⟨t, List.mem_cons_self .., h⟩

/-- An anchoring point of the tail text past a prepended line-plus-newline is
an anchoring point of the whole. -/
theorem nlTails_append (l rest : List Char) : ∀ {s : List Char},
    s ∈ rest :: nlTails rest → s ∈ nlTails (l ++ '\n' :: rest) := by
  induction l with
  | nil =>
    intro s hs
    rw [List.nil_append, nlTails, if_pos rfl]
    exact hs
  | cons a l' ih =>
    intro s hs
    rw [List.cons_append, nlTails]
    by_cases ha : a = '\n'
    · rw [if_pos ha]
      exact List.mem_cons_of_mem _ (ih hs)
    · rw [if_neg ha]
      exact ih hs

/-- `(?m)^`-anchored matchers are stable under prepending a full line. -/
theorem any_lineStarts_extend {f : List Char → Bool} (l rest : List Char)
    (h : (lineStarts rest).any f = true) :
    (lineStarts (l ++ '\n' :: rest)).any f = true := by
  obtain ⟨s, hs, hat⟩ := List.any_eq_true.mp h
  exact List.any_eq_true.mpr
    ⟨s, List.mem_cons_of_mem _ (nlTails_append l rest hs), hat⟩

/-- A counted assignment line makes pattern 4 fire on the line in context. -/
theorem p4_transfer (l rest : List Char) (hl : ∀ c ∈ l, isBreak c = false)
    (_hrest : rest = [] ∨ ∃ r', rest = '\n' :: r')
    (h : assignLine (rstrip l) = true) : p4 (l ++ rest) = true := by
  apply any_lineStarts_head
  simp only [assignLine, Bool.and_eq_true] at h
  obtain ⟨h1, h2⟩ := h
  have hW : (((rstrip l).dropWhile pySpace).takeWhile wordc).isEmpty = false := by
    simpa using h1
  split at h2
  case _ rr heq =>
    have hrr : rr.isEmpty = false := by simpa using h2
    -- abbreviations (spelled out, as plain equalities)
    have hs1ne : ((rstrip l).dropWhile pySpace).isEmpty = false := by
      rcases hs : (rstrip l).dropWhile pySpace with - | ⟨x, s'⟩
      · rw [hs] at hW; simp at hW
      · rfl
    have hvne : (((rstrip l).dropWhile pySpace).dropWhile wordc).isEmpty = false := by
      rcases hvs : ((rstrip l).dropWhile pySpace).dropWhile wordc with - | ⟨x, s'⟩
      · rw [hvs] at heq; simp [List.dropWhile] at heq
      · rfl
    have hv2ne : ((((rstrip l).dropWhile pySpace).dropWhile wordc).dropWhile pySpace).isEmpty
        = false := by
      rw [heq]; rfl
    have f2 : l.dropWhile pySpace =
        (rstrip l).dropWhile pySpace ++ (l.reverse.takeWhile pySpace).reverse := by
      conv_lhs => rw [rstrip_spec l]
      exact dropWhile_append_ne hs1ne _
    have hlne : (l.dropWhile pySpace).isEmpty = false := by
      rw [f2]
      rcases hs : (rstrip l).dropWhile pySpace with - | ⟨x, s'⟩
      · rw [hs] at hs1ne; simp at hs1ne
      · simp
    have f3 : (l ++ rest).dropWhile pySpace =
        (rstrip l).dropWhile pySpace ++ ((l.reverse.takeWhile pySpace).reverse ++ rest) := by
      rw [dropWhile_append_ne hlne rest, f2, List.append_assoc]
    have f4 : ((rstrip l).dropWhile pySpace ++ ((l.reverse.takeWhile pySpace).reverse ++ rest)).takeWhile wordc =
        ((rstrip l).dropWhile pySpace).takeWhile wordc :=
      takeWhile_append_stop hvne _
    have f5 : ((rstrip l).dropWhile pySpace ++ ((l.reverse.takeWhile pySpace).reverse ++ rest)).dropWhile wordc =
        ((rstrip l).dropWhile pySpace).dropWhile wordc ++ ((l.reverse.takeWhile pySpace).reverse ++ rest) :=
      dropWhile_append_ne hvne _
    have f6 : (((rstrip l).dropWhile pySpace).dropWhile wordc ++ ((l.reverse.takeWhile pySpace).reverse ++ rest)).dropWhile pySpace =
        '=' :: (rr ++ ((l.reverse.takeWhile pySpace).reverse ++ rest)) := by
      rw [dropWhile_append_ne hv2ne _, heq]
      rfl
    have f7 : afterEq (rr ++ ((l.reverse.takeWhile pySpace).reverse ++ rest)) = true := by
      rcases hrs : rr with - | ⟨c0, rr'⟩
      · rw [hrs] at hrr; simp at hrr
      · have h1m : c0 ∈ (((rstrip l).dropWhile pySpace).dropWhile wordc).dropWhile pySpace := by
          rw [heq, hrs]
          exact List.mem_cons_of_mem _ (List.mem_cons_self ..)
        have h4m : c0 ∈ rstrip l :=
          (List.dropWhile_sublist _).subset ((List.dropWhile_sublist _).subset
            ((List.dropWhile_sublist _).subset h1m))
        have hc0l : c0 ∈ l := rstrip_sub h4m
        have hc0 : c0 ≠ '\n' := by
          intro he
          have hb := hl c0 hc0l
          rw [he] at hb
          exact absurd hb (by decide)
        simp [afterEq, hrs, hc0]
    simp only [p4at, f3, f4, f5, f6, hW, Bool.not_false, Bool.true_and]
    exact f7
  case _ => cases h2

/-- Pattern 4 is stable under prepending a full line. -/
theorem p4_H2 (l rest : List Char) (_ : ∀ c ∈ l, isBreak c = false)
    (h : p4 rest = true) : p4 (l ++ '\n' :: rest) = true :=
  any_lineStarts_extend l rest h

/-- A positive assignment count makes pattern 4 fire, on `'\n'`-only text. -/
theorem assigns_pos_p4 {t : List Char} (hnl : ∀ c ∈ t, isBreak c = true → c = '\n')
    (h : 0 < assigns t) : p4 t = true := by
  obtain ⟨l, hl, hp⟩ := List.countP_pos_iff.mp h
  obtain ⟨l0, hl0, rfl⟩ := List.mem_map.mp hl
  have hnoCR : '\x0d' ∉ t := by
    intro hcm
    exact absurd (hnl _ hcm (by decide)) (by decide)
  have hl0p : l0 ∈ splitPieces t := by
    have hmem := dropLastEmpty_sub hl0
    rwa [normCRLF_eq_self t hnoCR] at hmem
  exact piece_to_text (fun l' => assignLine (rstrip l')) p4 p4_transfer p4_H2 t hnl
    ⟨l0, hl0p, hp⟩

/-- A counted bare-tag line makes pattern 6 fire on the line in context. -/
theorem p6_transfer (l rest : List Char) (hl : ∀ c ∈ l, isBreak c = false)
    (_hrest : rest = [] ∨ ∃ r', rest = '\n' :: r')
    (h : tagLine (rstrip l) = true) : p6 (l ++ rest) = true := by
  apply any_lineStarts_head
  unfold tagLine at h
  split at h
  case _ r0 heq1 =>
    simp only [Bool.and_eq_true] at h
    obtain ⟨hbody, h2⟩ := h
    split at h2
    case _ r2 heq2 =>
      -- pieces
      have hs1ne : ((rstrip l).dropWhile pySpace).isEmpty = false := by
        rw [heq1]; rfl
      have f2 : l.dropWhile pySpace =
          (rstrip l).dropWhile pySpace ++ (l.reverse.takeWhile pySpace).reverse := by
        conv_lhs => rw [rstrip_spec l]
        exact dropWhile_append_ne hs1ne _
      have hlne : (l.dropWhile pySpace).isEmpty = false := by
        rw [f2, heq1]; simp
      have f3 : (l ++ rest).dropWhile pySpace =
          '<' :: (r0 ++ ((l.reverse.takeWhile pySpace).reverse ++ rest)) := by
        rw [dropWhile_append_ne hlne rest, f2, heq1, List.append_assoc]
        rfl
      have hr0ne : (r0.dropWhile (fun c => decide (c ≠ '>'))).isEmpty = false := by
        rw [heq2]; rfl
      have g2 : (r0 ++ ((l.reverse.takeWhile pySpace).reverse ++ rest)).takeWhile
          (fun c => decide (c ≠ '>')) = r0.takeWhile (fun c => decide (c ≠ '>')) :=
        takeWhile_append_stop hr0ne _
      have g3 : (r0 ++ ((l.reverse.takeWhile pySpace).reverse ++ rest)).dropWhile
          (fun c => decide (c ≠ '>')) =
          '>' :: (r2 ++ ((l.reverse.takeWhile pySpace).reverse ++ rest)) := by
        rw [dropWhile_append_ne hr0ne _, heq2]
        rfl
      have g4 : endsLine (r2 ++ ((l.reverse.takeWhile pySpace).reverse ++ rest)) = true := by
        apply endsLine_ws_prefix
        · intro c hc
          have hcr2 : c ∈ r0.dropWhile (fun c => decide (c ≠ '>')) := by
            rw [heq2]; exact List.mem_cons_of_mem _ hc
          have hcr0 : c ∈ r0 := (List.dropWhile_sublist _).subset hcr2
          have hcl : c ∈ l := by
            have hm1 : c ∈ (rstrip l).dropWhile pySpace := by
              rw [heq1]; exact List.mem_cons_of_mem _ hcr0
            exact rstrip_sub ((List.dropWhile_sublist _).subset hm1)
          exact ⟨List.all_eq_true.mp h2 c hc, hl c hcl⟩
        · apply endsLine_ws_prefix
          · intro c hc
            exact ⟨trail_space c hc, hl c (trail_sub hc)⟩
          · rcases _hrest with rfl | ⟨r', rfl⟩
            · rfl
            · rw [endsLine, if_pos rfl]
      simp only [p6at, f3, g2, g3]
      exact (Bool.and_eq_true ..).mpr ⟨hbody, g4⟩
    case _ => cases h2
  case _ => cases h

/-- Pattern 6 is stable under prepending a full line. -/
theorem p6_H2 (l rest : List Char) (_ : ∀ c ∈ l, isBreak c = false)
    (h : p6 rest = true) : p6 (l ++ '\n' :: rest) = true :=
  any_lineStarts_extend l rest h

/-- A positive tag count makes pattern 6 fire, on `'\n'`-only text. -/
theorem tags_pos_p6 {t : List Char} (hnl : ∀ c ∈ t, isBreak c = true → c = '\n')
    (h : 0 < tags t) : p6 t = true := by
  obtain ⟨l, hl, hp⟩ := List.countP_pos_iff.mp h
  obtain ⟨l0, hl0, rfl⟩ := List.mem_map.mp hl
  have hnoCR : '\x0d' ∉ t := by
    intro hcm
    exact absurd (hnl _ hcm (by decide)) (by decide)
  have hl0p : l0 ∈ splitPieces t := by
    have hmem := dropLastEmpty_sub hl0
    rwa [normCRLF_eq_self t hnoCR] at hmem
  exact piece_to_text (fun l' => tagLine (rstrip l')) p6 p6_transfer p6_H2 t hnl
    ⟨l0, hl0p, hp⟩

/-- Positive fence-delimiter counts make pattern 1 fire. -/
theorem blocks_pos_p1 {t : List Char} (h : 0 < blocks t) : p1 t = true := by
  have hb : blocks t =
      countSubPosF bq [bq, bq] t.length t + countSubPosF '~' ['~', '~'] t.length t := rfl
  rw [hb] at h
  have hsplit : 0 < countSubPosF bq [bq, bq] t.length t ∨
      0 < countSubPosF '~' ['~', '~'] t.length t := by omega
  rcases hsplit with h' | h'
  · simp [p1, countSubPosF_pos_contains h']
  · simp [p1, countSubPosF_pos_contains h']

/-- Pattern 1 firing makes the primary tier fire. -/
theorem anyCP_of_p1 {t : List Char} (h : p1 t = true) : anyCodePattern t = true := by
  simp [anyCodePattern, h]

/-- Pattern 3 firing makes the primary tier fire. -/
theorem anyCP_of_p3 {t : List Char} (h : p3 t = true) : anyCodePattern t = true := by
  simp [anyCodePattern, h]

/-- Pattern 4 firing makes the primary tier fire. -/
theorem anyCP_of_p4 {t : List Char} (h : p4 t = true) : anyCodePattern t = true := by
  simp [anyCodePattern, h]

/-- Pattern 6 firing makes the primary tier fire. -/
theorem anyCP_of_p6 {t : List Char} (h : p6 t = true) : anyCodePattern t = true := by
  simp [anyCodePattern, h]

/-- Counterexample to claim C10 as stated: on `"x;\ry;\rz;\rw"` — three
carriage-return-terminated `;` lines — every primary pattern fails (the
`(?m)$` anchor recognises only `'\n'`, not `'\r'`), yet `str.splitlines`
splits at `'\r'`, so the ender count reaches 3 and the fallback tier
suppresses: the aggregate-count fallback does change the decision. -/
theorem C10_counterexample :
    blankStr (cs "x;\ry;\rz;\rw") = false ∧
    anyCodePattern (cs "x;\ry;\rz;\rw") = false ∧
    looks_like_code_str (cs "x;\ry;\rz;\rw") = true := by
  refine ⟨by decide, by decide, by decide⟩

/-- Claim C10 as amended: on every input whose break characters are all
`'\n'` (no carriage returns, vertical tabs or form feeds), `looks_like_code`
equals the disjunction of the seven primary patterns — the aggregate-count
fallback never changes the decision there, because each counted shape is
matched by a primary pattern whenever its count is positive, and blank input
fires neither tier. -/
theorem C10_fallback_redundant (t : List Char)
    (hnl : ∀ c ∈ t, isBreak c = true → c = '\n') :
    looks_like_code_str t = anyCodePattern t := by
  by_cases hb : blankStr t = true
  · rw [looks_like_code_str, if_pos hb, blank_no_pattern hb]
  · have hb' : blankStr t = false := by simpa using hb
    by_cases hcp : anyCodePattern t = true
    · simp [looks_like_code_str, hb', hcp]
    · have hcp' : anyCodePattern t = false := by simpa using hcp
      simp only [looks_like_code_str, hb', Bool.false_eq_true, if_false, hcp', if_true]
      have he : ¬ 3 ≤ enders t := fun hh => by
        rw [anyCP_of_p3 (enders_pos_p3 hnl (by omega))] at hcp'
        cases hcp'
      have ha : ¬ 3 ≤ assigns t := fun hh => by
        rw [anyCP_of_p4 (assigns_pos_p4 hnl (by omega))] at hcp'
        cases hcp'
      have htg : ¬ 3 ≤ tags t := fun hh => by
        rw [anyCP_of_p6 (tags_pos_p6 hnl (by omega))] at hcp'
        cases hcp'
      have hbl : ¬ 0 < blocks t := fun hh => by
        rw [anyCP_of_p1 (blocks_pos_p1 hh)] at hcp'
        cases hcp'
      simp [he, ha, htg, hbl]

/-- Witness for the amended C10 on a newline-only input. -/
theorem C10_fallback_redundant_witness :
    (∀ c ∈ cs "x;\ny;\nz;", isBreak c = true → c = '\n') ∧
    looks_like_code_str (cs "x;\ny;\nz;") = anyCodePattern (cs "x;\ny;\nz;") :=
  ⟨by decide, C10_fallback_redundant (cs "x;\ny;\nz;") (by decide)⟩

end NovaFree
